import Mathlib

/-!
Shallow embedding of the tag codec layer of the repository (APE tag model and
byte reader, ID3v2 extended URL frame, FLAC metadata-block reader), together
with theorems settling the frozen claims about it.

Rust strings are embedded as `List Char` (Unicode scalar values), byte
streams as `List Nat` with every element a byte value.  Fallible code
returns `Except`/`Option`; stateful readers are explicit functions from the
remaining byte list to a result paired with the rest of the list.
-/

set_option autoImplicit false

namespace Lofty

/-! ## Rust string primitives used by the tag code -/

/-- Rust `u8::to_ascii_lowercase`, lifted to a Unicode scalar value: ASCII
uppercase letters are mapped to lowercase, everything else is unchanged. -/
def lowerChar (c : Char) : Char :=
  if 65 ≤ c.toNat ∧ c.toNat ≤ 90 then Char.ofNat (c.toNat + 32) else c

/-- Rust `char::to_ascii_uppercase`: ASCII lowercase letters are mapped to
uppercase, everything else is unchanged.  `str::to_uppercase` is embedded as
the per-character map of this function; the embedding covers the ASCII
fragment (non-ASCII characters are left unchanged). -/
def upperChar (c : Char) : Char :=
  if 97 ≤ c.toNat ∧ c.toNat ≤ 122 then Char.ofNat (c.toNat - 32) else c

/-- Rust `str::eq_ignore_ascii_case`: equality after ASCII case folding. -/
def eqIgnoreAsciiCase (a b : List Char) : Bool :=
  a.map lowerChar == b.map lowerChar

/-- Whether a character is an ASCII decimal digit. -/
def isDigitChar (c : Char) : Bool :=
  decide (48 ≤ c.toNat ∧ c.toNat ≤ 57)

/-- Numeric value of a list of ASCII digit characters, most significant
first. -/
def digitsVal (l : List Char) : Nat :=
  l.foldl (fun a c => a * 10 + (c.toNat - 48)) 0

def U32MAX : Nat := 4294967295

/-- Rust `str::parse::<u32>()`: an optional leading plus sign, then one or
more ASCII digits, and the value must fit in 32 bits; anything else is a
parse failure (`None`). -/
def parseU32 (s : List Char) : Option Nat :=
  let body := match s with
    | [] => s
    | c :: rest => if c = '+' then rest else s
  if body ≠ [] ∧ body.all isDigitChar then
    let v := digitsVal body
    if v ≤ U32MAX then some v else none
  else none

/-- ASCII digit character for a digit value. -/
def digitChar (d : Nat) : Char := Char.ofNat (48 + d)

/-- Decimal printing of a natural number (Rust `u32::to_string`),
accumulator form: the digits of `n` are prepended to `acc`. -/
def natToCharsAux (n : Nat) (acc : List Char) : List Char :=
  if h : n < 10 then digitChar n :: acc
  else natToCharsAux (n / 10) (digitChar (n % 10) :: acc)
termination_by n
decreasing_by
  exact Nat.div_lt_self (by omega) (by omega)

/-- Decimal printing of a natural number (Rust `u32::to_string`). -/
def natToChars (n : Nat) : List Char := natToCharsAux n []

/-- Number of decimal digits printed for a natural number. -/
def numDigits (n : Nat) : Nat :=
  if n < 10 then 1 else numDigits (n / 10) + 1
termination_by n
decreasing_by exact Nat.div_lt_self (by omega) (by omega)

/-- Rust `str::split(sep)`: the list of separator-delimited pieces,
including empty pieces; the empty string yields one empty piece. -/
def splitOnChar (sep : Char) : List Char → List (List Char)
  | [] => [[]]
  | c :: rest =>
    let r := splitOnChar sep rest
    if c = sep then [] :: r
    else
      match r with
      | [] => [[c]]
      | h :: t => (c :: h) :: t

/-- Rust `str::splitn(2, sep)`: the piece before the first separator, and
the rest after it when a separator occurs. -/
def splitFirst (sep : Char) : List Char → List Char × Option (List Char)
  | [] => ([], none)
  | c :: rest =>
    if c = sep then ([], some rest)
    else
      let p := splitFirst sep rest
      (c :: p.1, p.2)

/-! ## APE tag data model (`src/ape/tag/mod.rs`) -/

/-- `ItemValue` from the unified tag model: a tagged union of text, binary
and locator values. -/
inductive ItemValue where
  | text (s : List Char)
  | binary (b : List Nat)
  | locator (s : List Char)
deriving DecidableEq

/-- `ApeItem`: a key/value pair of an APE tag with its read-only flag. -/
structure ApeItem where
  read_only : Bool
  key : List Char
  value : ItemValue
deriving DecidableEq

/-- `ApeItem::text` (constructor used by the number-pair code): a non
read-only text item. -/
def ApeItem.text (key value : List Char) : ApeItem :=
  { read_only := false, key := key, value := ItemValue.text value }

/-- `ApeTag`: a read-only flag plus the ordered item list. -/
structure ApeTag where
  read_only : Bool := false
  items : List ApeItem := []
deriving DecidableEq

/-- `ApeTag::get`: first item whose key equals the given key ignoring ASCII
case. -/
def ApeTag.get (t : ApeTag) (key : List Char) : Option ApeItem :=
  t.items.find? (fun i => eqIgnoreAsciiCase i.key key)

/-- `ApeTag::remove`: retain only the items whose key does not match the
given key ignoring ASCII case. -/
def ApeTag.remove (t : ApeTag) (key : List Char) : ApeTag :=
  { t with items := t.items.filter (fun i => ! eqIgnoreAsciiCase i.key key) }

/-- `ApeTag::insert`: remove any item with the same key, then push the new
item at the end. -/
def ApeTag.insert (t : ApeTag) (v : ApeItem) : ApeTag :=
  let t := t.remove v.key
  { t with items := t.items ++ [v] }

/-- `ApeTag::contains`. -/
def ApeTag.contains (t : ApeTag) (key : List Char) : Bool :=
  t.items.any (fun i => eqIgnoreAsciiCase i.key key)

def trackKey : List Char := "Track".data
def discKey : List Char := "Disc".data

/-- `ApeTag::split_num_pair`: on a text item under the given key, split the
text on every slash, run `u32` parsing on each piece, and return the first
two successfully parsed values. -/
def ApeTag.splitNumPair (t : ApeTag) (key : List Char) : Option Nat × Option Nat :=
  match t.get key with
  | some { value := ItemValue.text s, .. } =>
    let l := (splitOnChar '/' s).filterMap parseU32
    (l.head?, l[1]?)
  | _ => (none, none)

/-- Modelled from the spec: `format_number_pair` (from
`id3/v2/util/pairs.rs`, which is not under `src/`).  Per the spec (section
4.1) a pair is stored as the text "current" or "current/total", and joining
omits the pair entirely when both components are absent; the repository
tests (`set_track_total`, `DEFAULT_NUMBER_IN_PAIR`) show that a missing
current number is written as the default number 0. -/
def formatNumberPair (number total : Option Nat) : Option (List Char) :=
  match number, total with
  | some n, none => some (natToChars n)
  | some n, some t => some (natToChars n ++ '/' :: natToChars t)
  | none, some t => some (natToChars 0 ++ '/' :: natToChars t)
  | none, none => none

/-- `ApeTag::insert_number_pair`: insert the formatted pair text, or only
log a warning (a no-op on the tag) when both components are absent. -/
def ApeTag.insertNumberPair (t : ApeTag) (key : List Char)
    (number total : Option Nat) : ApeTag :=
  match formatNumberPair number total with
  | some value => t.insert (ApeItem.text key value)
  | none => t

/-- `Accessor::track` for `ApeTag`. -/
def ApeTag.track (t : ApeTag) : Option Nat := (t.splitNumPair trackKey).1

/-- `Accessor::track_total` for `ApeTag`. -/
def ApeTag.trackTotal (t : ApeTag) : Option Nat := (t.splitNumPair trackKey).2

/-- `Accessor::set_track` for `ApeTag`. -/
def ApeTag.setTrack (t : ApeTag) (value : Nat) : ApeTag :=
  t.insertNumberPair trackKey (some value) t.trackTotal

/-- `Accessor::set_track_total` for `ApeTag`. -/
def ApeTag.setTrackTotal (t : ApeTag) (value : Nat) : ApeTag :=
  t.insertNumberPair trackKey t.track (some value)

/-- `Accessor::remove_track_total` for `ApeTag`: remember the current track
number, drop the Track item, and if a track number existed re-insert it as
a bare text item. -/
def ApeTag.removeTrackTotal (t : ApeTag) : ApeTag :=
  let existing := t.track
  let t := t.remove trackKey
  match existing with
  | some track => t.insert (ApeItem.text trackKey (natToChars track))
  | none => t

/-- `Accessor::disk` for `ApeTag`. -/
def ApeTag.disk (t : ApeTag) : Option Nat := (t.splitNumPair discKey).1

/-- `Accessor::disk_total` for `ApeTag`. -/
def ApeTag.diskTotal (t : ApeTag) : Option Nat := (t.splitNumPair discKey).2

/-- `Accessor::set_disk` for `ApeTag`. -/
def ApeTag.setDisk (t : ApeTag) (value : Nat) : ApeTag :=
  t.insertNumberPair discKey (some value) t.diskTotal

/-- `Accessor::remove_disk_total` for `ApeTag`.  The source reads the
TRACK number (`self.track()`) here, not the disk number, and re-inserts it
under the Disc key; the embedding mirrors that line for line. -/
def ApeTag.removeDiskTotal (t : ApeTag) : ApeTag :=
  let existing_track_number := t.track
  let t := t.remove discKey
  match existing_track_number with
  | some track => t.insert (ApeItem.text discKey (natToChars track))
  | none => t

/-- `ApeTag::new`. -/
def ApeTag.new : ApeTag := {}

/-! ## Split adapter (`SplitTag for ApeTag`, `src/ape/tag/mod.rs`) -/

/-- The unified-model item keys that the APE split adapter distinguishes;
every other key is carried through the catch-all escape. -/
inductive ItemKey where
  | trackNumber
  | trackTotal
  | discNumber
  | discTotal
  | movementNumber
  | movementTotal
  | unknown (key : List Char)
deriving DecidableEq

/-- `TagItem` of the unified model as the split adapter builds it:
`TagItem::new(key, value)` is a plain pair constructor. -/
structure TagItem where
  key : ItemKey
  value : ItemValue
deriving DecidableEq

/-- Modelled from the spec: `ItemKey::from_key(TagType::Ape, key)` (from
`tag/item.rs`, which is not under `src/`).  The spec (section 6) gives the
native number-pair keys by convention, and native APE key lookup is
case-insensitive (section 3, case-insensitive key identity); keys with no
known mapping fall into the "unknown" escape keyed by the raw string. -/
def itemKeyFromApeKey (k : List Char) : ItemKey :=
  if eqIgnoreAsciiCase k trackKey then ItemKey.trackNumber
  else if eqIgnoreAsciiCase k discKey then ItemKey.discNumber
  else if eqIgnoreAsciiCase k ("Movement".data) then ItemKey.movementNumber
  else ItemKey.unknown k

/-- `split_pair` (the local helper inside `split_tag`): split the content
on the first slash with `splitn(2, '/')`, push the piece before it under
the current key, and when a slash occurred push the rest under the total
key.  The first `splitn` piece always exists, so the result is always
`Some`. -/
def splitPair (content : List Char) (tag : List TagItem)
    (current_key total_key : ItemKey) : Option (List TagItem) :=
  let p := splitFirst '/' content
  let tag := tag ++ [{ key := current_key, value := ItemValue.text p.1 }]
  match p.2 with
  | some total => some (tag ++ [{ key := total_key, value := ItemValue.text total }])
  | none => some tag

/-- The item loop of `split_tag`: each APE item is either consumed by
`split_pair` (number-pair keys with text values) or pushed verbatim under
its mapped key. -/
def splitTagItems : List ApeItem → List TagItem → List TagItem
  | [], tag => tag
  | item :: rest, tag =>
    match itemKeyFromApeKey item.key, item.value with
    | ItemKey.trackNumber, ItemValue.text val =>
      (match splitPair val tag ItemKey.trackNumber ItemKey.trackTotal with
       | some tag2 => splitTagItems rest tag2
       | none =>
         splitTagItems rest (tag ++ [{ key := ItemKey.trackNumber, value := item.value }]))
    | ItemKey.trackTotal, ItemValue.text val =>
      (match splitPair val tag ItemKey.trackNumber ItemKey.trackTotal with
       | some tag2 => splitTagItems rest tag2
       | none =>
         splitTagItems rest (tag ++ [{ key := ItemKey.trackTotal, value := item.value }]))
    | ItemKey.discNumber, ItemValue.text val =>
      (match splitPair val tag ItemKey.discNumber ItemKey.discTotal with
       | some tag2 => splitTagItems rest tag2
       | none =>
         splitTagItems rest (tag ++ [{ key := ItemKey.discNumber, value := item.value }]))
    | ItemKey.discTotal, ItemValue.text val =>
      (match splitPair val tag ItemKey.discNumber ItemKey.discTotal with
       | some tag2 => splitTagItems rest tag2
       | none =>
         splitTagItems rest (tag ++ [{ key := ItemKey.discTotal, value := item.value }]))
    | ItemKey.movementNumber, ItemValue.text val =>
      (match splitPair val tag ItemKey.movementNumber ItemKey.movementTotal with
       | some tag2 => splitTagItems rest tag2
       | none =>
         splitTagItems rest (tag ++ [{ key := ItemKey.movementNumber, value := item.value }]))
    | ItemKey.movementTotal, ItemValue.text val =>
      (match splitPair val tag ItemKey.movementNumber ItemKey.movementTotal with
       | some tag2 => splitTagItems rest tag2
       | none =>
         splitTagItems rest (tag ++ [{ key := ItemKey.movementTotal, value := item.value }]))
    | k, _ => splitTagItems rest (tag ++ [{ key := k, value := item.value }])

/-- `SplitTag::split_tag` for `ApeTag`: the remainder is the tag with its
items taken out, and the unified tag is the converted item list. -/
def ApeTag.splitTag (t : ApeTag) : ApeTag × List TagItem :=
  ({ t with items := [] }, splitTagItems t.items [])

/-- The amended description of pair explosion: the text before the first
slash under the current key and, when a slash is present, the text after
it under the total key, with no numeric validation. -/
def explodedPair (current_key total_key : ItemKey) (v : List Char) : List TagItem :=
  match splitFirst '/' v with
  | (c, some t) => [{ key := current_key, value := ItemValue.text c },
                    { key := total_key, value := ItemValue.text t }]
  | (c, none) => [{ key := current_key, value := ItemValue.text c }]

/-- The amended description of number-pair reading: the segments of the
text, in order, that parse as `u32` numbers. -/
def collectParsed : List (List Char) → List Nat
  | [] => []
  | seg :: rest =>
    match parseU32 seg with
    | some v => v :: collectParsed rest
    | none => collectParsed rest

/-! ## Text encodings for ID3v2 (`util/text.rs` helpers, modelled) -/

/-- `TextEncoding` of the text utilities: the four ID3v2 text encodings. -/
inductive TextEncoding where
  | latin1
  | utf16
  | utf16be
  | utf8
deriving DecidableEq

/-- The ID3v2 encoding byte of each text encoding. -/
def TextEncoding.toByte : TextEncoding → Nat
  | .latin1 => 0
  | .utf16 => 1
  | .utf16be => 2
  | .utf8 => 3

/-- `TextEncoding::from_u8`: the inverse of the encoding byte. -/
def TextEncoding.fromByte (b : Nat) : Option TextEncoding :=
  match b with
  | 0 => some .latin1
  | 1 => some .utf16
  | 2 => some .utf16be
  | 3 => some .utf8
  | _ => none

/-- The three ID3v2 tag versions. -/
inductive Id3v2Version where
  | v2
  | v3
  | v4
deriving DecidableEq

/-- Errors of the ID3v2 frame content decoding path. -/
inductive Id3Err where
  | ioEof
  | badEncoding
  | badText
deriving DecidableEq

/-- Modelled from the spec: `verify_encoding` (from
`id3/v2/frame/content.rs`, which is not under `src/`).  Per the spec
(section 4.2) the byte must resolve to a known encoding, and for tag
version 2 only Latin-1 and UTF-16 are permitted; violations are hard
decode errors. -/
def verifyEncoding (b : Nat) (version : Id3v2Version) : Except Id3Err TextEncoding :=
  match TextEncoding.fromByte b with
  | none => .error .badEncoding
  | some enc =>
    match version, enc with
    | .v2, .latin1 => .ok .latin1
    | .v2, .utf16 => .ok .utf16
    | .v2, _ => .error .badEncoding
    | _, e => .ok e

/-- Concatenation of the images of a list under a list-valued function. -/
def flatMapL {α β : Type} (f : α → List β) : List α → List β
  | [] => []
  | a :: r => f a ++ flatMapL f r

/-- UTF-8 bytes of one Unicode scalar value. -/
def utf8encodeChar (c : Char) : List Nat :=
  let n := c.toNat
  if n < 128 then [n]
  else if n < 2048 then [192 + n / 64, 128 + n % 64]
  else if n < 65536 then [224 + n / 4096, 128 + n / 64 % 64, 128 + n % 64]
  else [240 + n / 262144, 128 + n / 4096 % 64, 128 + n / 64 % 64, 128 + n % 64]

/-- UTF-8 bytes of a string. -/
def utf8encode (s : List Char) : List Nat := flatMapL utf8encodeChar s

/-- UTF-8 decoding of a byte list, rejecting truncated or overlong
sequences, surrogates and out-of-range code points (`String::from_utf8`).
The result is `none` exactly when the bytes are not valid UTF-8. -/
def utf8decode : List Nat → Option (List Char)
  | [] => some []
  | b :: rest =>
    if b < 128 then
      match utf8decode rest with
      | some cs => some (Char.ofNat b :: cs)
      | none => none
    else if b < 194 then none
    else if b < 224 then
      match rest with
      | c1 :: rest1 =>
        if 128 ≤ c1 ∧ c1 < 192 then
          match utf8decode rest1 with
          | some cs => some (Char.ofNat ((b - 192) * 64 + (c1 - 128)) :: cs)
          | none => none
        else none
      | [] => none
    else if b < 240 then
      match rest with
      | c1 :: c2 :: rest2 =>
        if (128 ≤ c1 ∧ c1 < 192) ∧ (128 ≤ c2 ∧ c2 < 192) then
          let cp := (b - 224) * 4096 + (c1 - 128) * 64 + (c2 - 128)
          if cp < 2048 ∨ (55296 ≤ cp ∧ cp ≤ 57343) then none
          else
            match utf8decode rest2 with
            | some cs => some (Char.ofNat cp :: cs)
            | none => none
        else none
      | _ => none
    else if b < 245 then
      match rest with
      | c1 :: c2 :: c3 :: rest3 =>
        if (128 ≤ c1 ∧ c1 < 192) ∧ (128 ≤ c2 ∧ c2 < 192) ∧ (128 ≤ c3 ∧ c3 < 192) then
          let cp := (b - 240) * 262144 + (c1 - 128) * 4096 + (c2 - 128) * 64 + (c3 - 128)
          if cp < 65536 ∨ 1114111 < cp then none
          else
            match utf8decode rest3 with
            | some cs => some (Char.ofNat cp :: cs)
            | none => none
        else none
      | _ => none
    else none

/-- UTF-16 code units of one Unicode scalar value (surrogate pair above
the basic multilingual plane). -/
def utf16UnitsOfChar (c : Char) : List Nat :=
  if c.toNat < 65536 then [c.toNat]
  else [55296 + (c.toNat - 65536) / 1024, 56320 + (c.toNat - 65536) % 1024]

/-- Little-endian bytes of one UTF-16 code unit. -/
def leBytesOfUnit (u : Nat) : List Nat := [u % 256, u / 256 % 256]

/-- Big-endian bytes of one UTF-16 code unit. -/
def beBytesOfUnit (u : Nat) : List Nat := [u / 256 % 256, u % 256]

/-- Modelled from the spec: `encode_text` (from `util/text.rs`, which is
not under `src/`).  Latin-1 writes one byte per character (the Rust side
casts the scalar value to `u8`), UTF-16 writes a byte order mark followed
by the code units in the marked order, UTF-8 writes the UTF-8 bytes; a
terminated string is followed by the terminator of its encoding (one zero
byte, two for UTF-16). -/
def encodeText (s : List Char) (enc : TextEncoding) (terminated : Bool) : List Nat :=
  match enc with
  | .latin1 => s.map (fun c => c.toNat % 256) ++ (if terminated then [0] else [])
  | .utf8 => utf8encode s ++ (if terminated then [0] else [])
  | .utf16 =>
    255 :: 254 :: (flatMapL (fun c => flatMapL leBytesOfUnit (utf16UnitsOfChar c)) s
      ++ (if terminated then [0, 0] else []))
  | .utf16be =>
    254 :: 255 :: (flatMapL (fun c => flatMapL beBytesOfUnit (utf16UnitsOfChar c)) s
      ++ (if terminated then [0, 0] else []))

/-- Latin-1 decoding: every byte is the corresponding scalar value. -/
def latin1decode (bs : List Nat) : List Char := bs.map Char.ofNat

/-- Bytes up to the first zero byte, and the rest after that zero; when no
zero occurs the whole input is consumed. -/
def takeUntilZero : List Nat → List Nat × List Nat
  | [] => ([], [])
  | 0 :: r => ([], r)
  | b :: r =>
    let p := takeUntilZero r
    (b :: p.1, p.2)

/-- UTF-16 code units up to the first zero unit, read two bytes at a time
in the given byte order, and the bytes after the terminator; a trailing
lone byte is a decode failure. -/
def takeUnitsUntilZero (le : Bool) : List Nat → Option (List Nat × List Nat)
  | [] => some ([], [])
  | [_] => none
  | b1 :: b2 :: r =>
    let u := if le then b1 + b2 * 256 else b1 * 256 + b2
    if u = 0 then some ([], r)
    else
      match takeUnitsUntilZero le r with
      | some (us, rest) => some (u :: us, rest)
      | none => none

/-- Characters of a UTF-16 code unit list, combining surrogate pairs and
rejecting lone surrogates (`String::from_utf16`). -/
def utf16ToChars : List Nat → Option (List Char)
  | [] => some []
  | u :: rest =>
    if u < 55296 ∨ 57343 < u then
      match utf16ToChars rest with
      | some cs => some (Char.ofNat u :: cs)
      | none => none
    else if u ≤ 56319 then
      match rest with
      | u2 :: rest2 =>
        if 56320 ≤ u2 ∧ u2 ≤ 57343 then
          match utf16ToChars rest2 with
          | some cs => some (Char.ofNat (65536 + (u - 55296) * 1024 + (u2 - 56320)) :: cs)
          | none => none
        else none
      | [] => none
    else none

/-- Modelled from the spec: `decode_text` with a terminated string (from
`util/text.rs`, which is not under `src/`).  Latin-1 and UTF-8 read up to
a zero byte; UTF-16 requires a byte order mark, then reads code units up
to a zero unit.  The decoded string and the bytes after the terminator
are returned; malformed text is a hard decode error. -/
def decodeTextTerminated (enc : TextEncoding) (bytes : List Nat) :
    Except Id3Err (List Char × List Nat) :=
  match enc with
  | .latin1 =>
    let p := takeUntilZero bytes
    .ok (latin1decode p.1, p.2)
  | .utf8 =>
    let p := takeUntilZero bytes
    match utf8decode p.1 with
    | some s => .ok (s, p.2)
    | none => .error .badText
  | .utf16 =>
    match bytes with
    | 255 :: 254 :: rest =>
      match takeUnitsUntilZero true rest with
      | some (us, rest2) =>
        match utf16ToChars us with
        | some s => .ok (s, rest2)
        | none => .error .badText
      | none => .error .badText
    | 254 :: 255 :: rest =>
      match takeUnitsUntilZero false rest with
      | some (us, rest2) =>
        match utf16ToChars us with
        | some s => .ok (s, rest2)
        | none => .error .badText
      | none => .error .badText
    | _ => .error .badText
  | .utf16be =>
    match bytes with
    | 254 :: 255 :: rest =>
      match takeUnitsUntilZero false rest with
      | some (us, rest2) =>
        match utf16ToChars us with
        | some s => .ok (s, rest2)
        | none => .error .badText
      | none => .error .badText
    | _ => .error .badText

/-! ## Extended URL frame (`src/id3/v2/items/extended_url_frame.rs`) -/

/-- `ExtendedUrlFrame`: encoding, unique content description, and the
frame content. -/
structure ExtendedUrlFrame where
  encoding : TextEncoding
  description : List Char
  content : List Char
deriving DecidableEq

/-- `ExtendedUrlFrame::parse`: an empty reader yields no frame; otherwise
the encoding byte is verified against the version, the description is
decoded as a terminated string in that encoding, and the content is the
remaining bytes decoded as Latin-1. -/
def ExtendedUrlFrame.parse (bytes : List Nat) (version : Id3v2Version) :
    Except Id3Err (Option ExtendedUrlFrame) :=
  match bytes with
  | [] => .ok none
  | encByte :: rest =>
    match verifyEncoding encByte version with
    | .error e => .error e
    | .ok encoding =>
      match decodeTextTerminated encoding rest with
      | .error e => .error e
      | .ok (description, rest2) =>
        .ok (some { encoding := encoding, description := description,
                    content := latin1decode rest2 })

/-- `ExtendedUrlFrame::as_bytes`: the encoding byte, the description
encoded terminated in the frame encoding, then the content encoded
unterminated in the frame encoding (the source passes `self.encoding`
for the content as well). -/
def ExtendedUrlFrame.asBytes (f : ExtendedUrlFrame) : List Nat :=
  f.encoding.toByte ::
    (encodeText f.description f.encoding true ++ encodeText f.content f.encoding false)

/-- `PartialEq for ExtendedUrlFrame`: equality is on the description
alone. -/
def ExtendedUrlFrame.beqByDescription (a b : ExtendedUrlFrame) : Bool :=
  a.description == b.description

/-- `Hash for ExtendedUrlFrame`: only the description is fed to the
hasher, embodied by applying an arbitrary string hash. -/
def ExtendedUrlFrame.hashBy {α : Type} (h : List Char → α) (f : ExtendedUrlFrame) : α :=
  h f.description

/-! ## APE tag byte reader (`src/ape/tag/read.rs`) -/

/-- Errors of the APE tag reading path. -/
inductive ApeErr where
  | ioEof
  | sizeMismatch
  | nonUtf8Key
  | illegalKey
  | nonUtf8Text
  | nonUtf8Locator
  | badItemType
  | itemNewBadKey
deriving DecidableEq

/-- `read_u8`: one byte from the stream, end of stream is an I/O error. -/
def readU8 : List Nat → Except ApeErr (Nat × List Nat)
  | [] => .error .ioEof
  | b :: r => .ok (b, r)

/-- `read_u32::<LittleEndian>`: four bytes, least significant first. -/
def readU32LE : List Nat → Except ApeErr (Nat × List Nat)
  | b0 :: b1 :: b2 :: b3 :: r =>
    .ok (b0 + b1 * 256 + b2 * 65536 + b3 * 16777216, r)
  | _ => .error .ioEof

/-- `read_exact` into a buffer of `n` bytes. -/
def readExact (n : Nat) (bytes : List Nat) : Except ApeErr (List Nat × List Nat) :=
  if bytes.length < n then .error .ioEof else .ok (bytes.take n, bytes.drop n)

/-- The key loop of the reader: bytes up to a zero byte; running out of
input before the terminator is an I/O error. -/
def readKeyBytes : List Nat → Except ApeErr (List Nat × List Nat)
  | [] => .error .ioEof
  | 0 :: r => .ok ([], r)
  | b :: r =>
    match readKeyBytes r with
    | .ok (k, rest) => .ok (b :: k, rest)
    | .error e => .error e

/-- Modelled from the spec: `INVALID_KEYS` from `ape/constants.rs` (not
under `src/`): the reserved APE key set, by APE convention the envelope
markers of other tag formats (compared after uppercasing the key). -/
def INVALID_KEYS : List (List Char) :=
  [("ID3".data), ("TAG".data), ("OGGS".data), ("MP+".data)]

/-- UTF-8 byte length of a string, as Rust `str::len`. -/
def charsUtf8Len (s : List Char) : Nat := (s.map Char.utf8Size).sum

/-- Modelled from the spec: `ApeItem::new` (from `ape/tag/item.rs`, which
is not under `src/`).  Per the spec (section 3) the key must be 2 to 255
bytes long and must not be in the reserved set (case-insensitively); a
violation is a decode error. -/
def ApeItem.new (key : List Char) (value : ItemValue) : Except ApeErr ApeItem :=
  if (key.map upperChar) ∈ INVALID_KEYS then .error .itemNewBadKey
  else if charsUtf8Len key < 2 ∨ 255 < charsUtf8Len key then .error .itemNewBadKey
  else .ok { read_only := false, key := key, value := value }

/-- `ApeHeader`: the declared total size and item count used by the item
loop. -/
structure ApeHeader where
  size : Nat
  item_count : Nat

/-- The item loop of `read_ape_tag_with_header`, one iteration per
declared item (the `for` counter is the first argument):
stop early when fewer than 11 bytes of declared size remain; read the
value size (`SizeMismatch` when it exceeds the remaining size), deduct 4
from the remaining size, read the flag word and the zero-terminated key;
a non-UTF-8 key or a reserved key is a hard error; a zero value size or a
key of fewer than 2 or more than 255 bytes skips the item WITHOUT reading
its value bytes; otherwise read the value, decode it per the item type
(an unknown type is a hard error), build the item and insert it. -/
def readApeItemsLoop : Nat → Nat → List Nat → ApeTag → Except ApeErr (ApeTag × List Nat)
  | 0, _, bytes, tag => .ok (tag, bytes)
  | fuel + 1, remaining_size, bytes, tag =>
    if remaining_size < 11 then .ok (tag, bytes)
    else
      match readU32LE bytes with
      | .error e => .error e
      | .ok (value_size, bytes) =>
        if remaining_size < value_size then .error .sizeMismatch
        else
          let remaining_size := remaining_size - 4
          match readU32LE bytes with
          | .error e => .error e
          | .ok (flags, bytes) =>
            match readKeyBytes bytes with
            | .error e => .error e
            | .ok (keyBytes, bytes) =>
              match utf8decode keyBytes with
              | none => .error .nonUtf8Key
              | some key =>
                if (key.map upperChar) ∈ INVALID_KEYS then .error .illegalKey
                else
                  let read_only := flags % 2 == 1
                  let item_type := flags / 2 % 4
                  if value_size = 0 ∨ keyBytes.length < 2 ∨ 255 < keyBytes.length then
                    readApeItemsLoop fuel remaining_size bytes tag
                  else
                    match readExact value_size bytes with
                    | .error e => .error e
                    | .ok (value, bytes) =>
                      let parsed_value : Except ApeErr ItemValue :=
                        match item_type with
                        | 0 =>
                          match utf8decode value with
                          | some s => .ok (ItemValue.text s)
                          | none => .error .nonUtf8Text
                        | 1 => .ok (ItemValue.binary value)
                        | 2 =>
                          match utf8decode value with
                          | some s => .ok (ItemValue.locator s)
                          | none => .error .nonUtf8Locator
                        | _ => .error .badItemType
                      match parsed_value with
                      | .error e => .error e
                      | .ok pv =>
                        match ApeItem.new key pv with
                        | .error e => .error e
                        | .ok item =>
                          let item :=
                            if read_only then { item with read_only := true } else item
                          readApeItemsLoop fuel remaining_size bytes (tag.insert item)

/-- `read_ape_tag_with_header`: run the item loop over the declared item
count, then skip the 32-byte footer. -/
def readApeTagWithHeader (header : ApeHeader) (bytes : List Nat) :
    Except ApeErr (ApeTag × List Nat) :=
  match readApeItemsLoop header.item_count header.size bytes {} with
  | .error e => .error e
  | .ok (tag, rest) => .ok (tag, rest.drop 32)

/-- Little-endian 4-byte encoding of a 32-bit value, the left inverse of
`readU32LE`. -/
def u32le (n : Nat) : List Nat :=
  [n % 256, n / 256 % 256, n / 65536 % 256, n / 16777216 % 256]

/-! ## FLAC container reader (`src/flac/read.rs`) -/

/-- `ParsingMode` of the parse options: strict or relaxed. -/
inductive ParsingMode where
  | strict
  | relaxed
deriving DecidableEq

/-- `ParseOptions`: the configuration surface consumed by the reader. -/
structure ParseOptions where
  parsing_mode : ParsingMode
  read_properties : Bool

/-- Errors of the FLAC reading path. -/
inductive FlacErr where
  | ioEof
  | missingMarker
  | missingStreamInfo
  | badStreamInfoSize
  | zeroSizeBlock
  | duplicateVorbis
  | badComments
  | badPicture
  | badProperties
  | badSynchsafe
deriving DecidableEq

def BLOCK_ID_STREAMINFO : Nat := 0
def BLOCK_ID_PADDING : Nat := 1
def BLOCK_ID_SEEKTABLE : Nat := 3
def BLOCK_ID_VORBIS_COMMENTS : Nat := 4
def BLOCK_ID_PICTURE : Nat := 6

/-- `Block`: one FLAC metadata block with its last-block flag, type and
content bytes. -/
structure Block where
  last : Bool
  ty : Nat
  content : List Nat
deriving DecidableEq

/-- Modelled from the spec: `Block::read` (from `flac/block.rs`, which is
not under `src/`).  Per the spec (section 6) a block header is one byte
(bit 7 the last-block flag, bits 0 to 6 the type) and a 3-byte big-endian
content length, followed by exactly that many content bytes; running out
of input is an I/O error. -/
def Block.read : List Nat → Except FlacErr (Block × List Nat)
  | b :: l1 :: l2 :: l3 :: rest =>
    let len := l1 * 65536 + l2 * 256 + l3
    if rest.length < len then .error .ioEof
    else
      .ok ({ last := decide (128 ≤ b), ty := b % 128, content := rest.take len },
        rest.drop len)
  | _ => .error .ioEof

/-- `Block.read` consumes at least the four header bytes, which bounds the
block-walk loop. -/
theorem Block.read_length_lt {bytes : List Nat} {b : Block} {rest : List Nat}
    (h : Block.read bytes = .ok (b, rest)) : rest.length < bytes.length := by
  match bytes with
  | [] => exact absurd h (by simp [Block.read])
  | [_] => exact absurd h (by simp [Block.read])
  | [_, _] => exact absurd h (by simp [Block.read])
  | [_, _, _] => exact absurd h (by simp [Block.read])
  | b0 :: l1 :: l2 :: l3 :: bs =>
    rw [Block.read] at h
    split at h
    · exact absurd h (by simp)
    · simp only [Except.ok.injEq, Prod.mk.injEq] at h
      have := h.2
      subst this
      simp only [List.length_cons, List.length_drop]
      omega

/-- Modelled from the spec: `find_id3v2` (from `id3/mod.rs`, which is not
under `src/`).  Per the spec (sections 4.3 and 6) the probe looks for a
leading ID3v2 header/content pair: the 3-byte identifier "ID3" (an I/O
error if the stream is shorter), then the 2-byte version, the flags byte
and the 4-byte synchsafe size whose bytes must all have their top bit
clear (a set bit is a fatal structural corruption, section 7); the 28
reassembled bits give the content length, and that many content bytes are
returned together with the rest of the stream.  When the identifier does
not match, the stream is left at the start and nothing is found.  The
header-and-content part after the identifier is factored into
`findId3v2Header`. -/
def findId3v2Header (rest : List Nat) : Except FlacErr (Option (List Nat) × List Nat) :=
  match rest with
  | _vmaj :: _vrev :: _flags :: s1 :: s2 :: s3 :: s4 :: rest2 =>
    if s1 < 128 ∧ s2 < 128 ∧ s3 < 128 ∧ s4 < 128 then
      let size := s1 * 2097152 + s2 * 16384 + s3 * 128 + s4
      if rest2.length < size then .error .ioEof
      else .ok (some (rest2.take size), rest2.drop size)
    else .error .badSynchsafe
  | _ => .error .ioEof

def findId3v2 (bytes : List Nat) : Except FlacErr (Option (List Nat) × List Nat) :=
  match bytes with
  | b0 :: b1 :: b2 :: rest =>
    if b0 = 73 ∧ b1 = 68 ∧ b2 = 51 then findId3v2Header rest
    else .ok (none, bytes)
  | _ => .error .ioEof

/-- `FlacFile` over abstract ID3v2, Vorbis-comment, picture and
properties results: the embedded ID3v2 tag if one was found before the
marker, the Vorbis Comment tag if one was read, the pictures, and the
properties when requested (`None` embeds the default). -/
structure FlacFile (I V P Pr : Type) where
  id3v2_tag : Option I
  vorbis_comments_tag : Option V
  pictures : List P
  properties : Option Pr
deriving DecidableEq

section Flac

variable {V P Pr I : Type}
variable (readComments : List Nat → ParsingMode → Except FlacErr V)
variable (parsePicture : List Nat → ParsingMode → Except FlacErr P)
variable (readProps : List Nat → Nat → Except FlacErr Pr)
variable (parseId3 : List Nat → ParsingMode → Except FlacErr I)

/-- The block-walk loop of `read_from` (the `while !last_block` loop),
parametric in the external Vorbis-comment codec (`read_comments`) and
picture codec (`Picture::from_flac_bytes`), which are not under `src/`:
read a block; an empty block that is not PADDING or SEEKTABLE is a hard
error; a Vorbis Comment block when one was already seen is a hard error
in strict mode only, otherwise its parse replaces the current one; a
picture block that fails to parse is a hard error in strict mode and is
discarded in relaxed mode; stop after the block marked last. -/
def readBlocksLoop (mode : ParsingMode) (bytes : List Nat) (vorbis : Option V)
    (pics : List P) : Except FlacErr (Option V × List P × List Nat) :=
  match h : Block.read bytes with
  | .error e => .error e
  | .ok (block, rest) =>
    if block.content = [] ∧ block.ty ≠ BLOCK_ID_PADDING ∧ block.ty ≠ BLOCK_ID_SEEKTABLE then
      .error .zeroSizeBlock
    else if block.ty = BLOCK_ID_VORBIS_COMMENTS then
      if vorbis.isSome ∧ mode = ParsingMode.strict then .error .duplicateVorbis
      else
        match readComments block.content mode with
        | .error e => .error e
        | .ok vc =>
          if block.last then .ok (some vc, pics, rest)
          else readBlocksLoop mode rest (some vc) pics
    else if block.ty = BLOCK_ID_PICTURE then
      match parsePicture block.content mode with
      | .ok p =>
        if block.last then .ok (vorbis, pics ++ [p], rest)
        else readBlocksLoop mode rest vorbis (pics ++ [p])
      | .error e =>
        if mode = ParsingMode.strict then .error e
        else if block.last then .ok (vorbis, pics, rest)
        else readBlocksLoop mode rest vorbis pics
    else
      if block.last then .ok (vorbis, pics, rest)
      else readBlocksLoop mode rest vorbis pics
termination_by bytes.length
decreasing_by
  all_goals exact Block.read_length_lt h

/-- The tail of `read_from` after the embedded-ID3v2 probe, starting at
the `"fLaC"` marker (`verify_flac` and the block walk).  The first four
bytes must be the literal marker; the block after it must be STREAMINFO
with content at least 18 bytes; then the block chain is walked, and
properties are computed only when requested (`read_properties`), from the
STREAMINFO content and the remaining stream length, by the external
properties reader (not under `src/`). -/
def flacReadFromBlocks (opts : ParseOptions) (id3tag : Option I) (bytes : List Nat) :
    Except FlacErr (FlacFile I V P Pr) :=
  match bytes with
  | b0 :: b1 :: b2 :: b3 :: rest =>
    if b0 = 102 ∧ b1 = 76 ∧ b2 = 97 ∧ b3 = 67 then
      match Block.read rest with
      | .error e => .error e
      | .ok (stream_info, rest) =>
        if stream_info.ty ≠ BLOCK_ID_STREAMINFO then .error .missingStreamInfo
        else if stream_info.content.length < 18 then .error .badStreamInfoSize
        else
          let loopResult :=
            if stream_info.last then Except.ok (none, [], rest)
            else readBlocksLoop readComments parsePicture opts.parsing_mode rest none []
          match loopResult with
          | .error e => .error e
          | .ok (vorbis, pics, rest2) =>
            if opts.read_properties then
              match readProps stream_info.content rest2.length with
              | .error e => .error e
              | .ok pr =>
                .ok { id3v2_tag := id3tag, vorbis_comments_tag := vorbis,
                      pictures := pics, properties := some pr }
            else
              .ok { id3v2_tag := id3tag, vorbis_comments_tag := vorbis,
                    pictures := pics, properties := none }
    else .error .missingMarker
  | _ => .error .ioEof

/-- `read_from`: probe for a leading ID3v2 tag first (`find_id3v2`,
spec-modelled); when one is found, its content is parsed by the ID3v2
codec (`parse_id3v2`, whose frame machinery is not under `src/` and is
abstracted as a codec parameter) and kept on the file, with a parse error
propagated; then the stream from the marker on is read by
`flacReadFromBlocks`. -/
def flacReadFrom (opts : ParseOptions) (bytes : List Nat) :
    Except FlacErr (FlacFile I V P Pr) :=
  match findId3v2 bytes with
  | .error e => .error e
  | .ok (none, bytes) =>
    flacReadFromBlocks readComments parsePicture readProps opts none bytes
  | .ok (some content, bytes) =>
    match parseId3 content opts.parsing_mode with
    | .error e => .error e
    | .ok tag =>
      flacReadFromBlocks readComments parsePicture readProps opts (some tag) bytes

/-- The block-walk loop at the level of a list of blocks, used to state
theorems about streams given as block lists: one step per block, with the
same dispatch as `readBlocksLoop` but no byte decoding and no last-block
flag (the chain shape ties the flags to the list). -/
def processChain (mode : ParsingMode) :
    List Block → Option V → List P → Except FlacErr (Option V × List P)
  | [], vorbis, pics => .ok (vorbis, pics)
  | b :: bs, vorbis, pics =>
    if b.content = [] ∧ b.ty ≠ BLOCK_ID_PADDING ∧ b.ty ≠ BLOCK_ID_SEEKTABLE then
      .error .zeroSizeBlock
    else if b.ty = BLOCK_ID_VORBIS_COMMENTS then
      if vorbis.isSome ∧ mode = ParsingMode.strict then .error .duplicateVorbis
      else
        match readComments b.content mode with
        | .error e => .error e
        | .ok vc => processChain mode bs (some vc) pics
    else if b.ty = BLOCK_ID_PICTURE then
      match parsePicture b.content mode with
      | .ok p => processChain mode bs vorbis (pics ++ [p])
      | .error e =>
        if mode = ParsingMode.strict then .error e
        else processChain mode bs vorbis pics
    else processChain mode bs vorbis pics

end Flac

/-- The byte encoding of a block, inverse of `Block.read` for well-formed
blocks. -/
def encodeBlock (b : Block) : List Nat :=
  ((b.ty + if b.last then 128 else 0) ::
    [b.content.length / 65536 % 256, b.content.length / 256 % 256, b.content.length % 256])
    ++ b.content

/-- The byte encoding of a list of blocks. -/
def encodeBlocks : List Block → List Nat := flatMapL encodeBlock

/-- A block whose encoding round-trips: the type fits in 7 bits and the
content length in 24 bits. -/
def blockWF (b : Block) : Prop := b.ty < 128 ∧ b.content.length < 16777216

/-- A well-shaped block chain: every block except the final one has the
last-block flag clear, and the final one has it set. -/
inductive ChainLast : List Block → Prop where
  | single (b : Block) : b.last = true → ChainLast [b]
  | cons (b : Block) (bs : List Block) : b.last = false → ChainLast bs →
      ChainLast (b :: bs)

/-- The Vorbis Comment blocks of a chain, in stream order. -/
def vorbisBlocks (bs : List Block) : List Block :=
  bs.filter (fun b => b.ty == BLOCK_ID_VORBIS_COMMENTS)

/-- A block the walk handles without a hard error of its own in the given
mode: not an illegal zero-sized block; its Vorbis Comment payload parses
when it is a Vorbis Comment block; and in strict mode its picture payload
parses when it is a picture block. -/
def goodBlock {V P : Type} (rc : List Nat → ParsingMode → Except FlacErr V)
    (pp : List Nat → ParsingMode → Except FlacErr P) (mode : ParsingMode)
    (b : Block) : Prop :=
  ¬ (b.content = [] ∧ b.ty ≠ BLOCK_ID_PADDING ∧ b.ty ≠ BLOCK_ID_SEEKTABLE)
  ∧ (b.ty = BLOCK_ID_VORBIS_COMMENTS → ∃ v, rc b.content mode = Except.ok v)
  ∧ (b.ty = BLOCK_ID_PICTURE → mode = ParsingMode.strict →
      ∃ p, pp b.content mode = Except.ok p)

/-! ## Lemmas about decimal printing and parsing -/

theorem digitChar_toNat {d : Nat} (hd : d < 10) : (digitChar d).toNat = 48 + d := by
  interval_cases d <;> decide

theorem isDigitChar_digitChar {d : Nat} (hd : d < 10) :
    isDigitChar (digitChar d) = true := by
  interval_cases d <;> decide

theorem natToCharsAux_cons (n : Nat) : ∀ acc : List Char,
    ∃ d rest, d < 10 ∧ natToCharsAux n acc = digitChar d :: rest := by
  induction n using Nat.strong_induction_on with
  | _ n ih =>
    intro acc
    rw [natToCharsAux]
    split
    · next h => exact ⟨n, acc, h, rfl⟩
    · next h => exact ih (n / 10) (Nat.div_lt_self (by omega) (by omega)) _

theorem natToCharsAux_all (n : Nat) : ∀ acc : List Char, acc.all isDigitChar = true →
    (natToCharsAux n acc).all isDigitChar = true := by
  induction n using Nat.strong_induction_on with
  | _ n ih =>
    intro acc hacc
    rw [natToCharsAux]
    split
    · next h => simp [List.all_cons, hacc, isDigitChar_digitChar h]
    · next h =>
      exact ih (n / 10) (Nat.div_lt_self (by omega) (by omega)) _
        (by simp [List.all_cons, hacc, isDigitChar_digitChar (Nat.mod_lt n (by omega))])

theorem foldl_natToCharsAux (n : Nat) : ∀ (acc : List Char) (a : Nat),
    (natToCharsAux n acc).foldl (fun a c => a * 10 + (c.toNat - 48)) a
      = acc.foldl (fun a c => a * 10 + (c.toNat - 48)) (a * 10 ^ numDigits n + n) := by
  induction n using Nat.strong_induction_on with
  | _ n ih =>
    intro acc a
    rw [natToCharsAux, numDigits]
    split
    · next h =>
      simp only [List.foldl_cons, digitChar_toNat h, pow_one]
      congr 1
      omega
    · next h =>
      rw [ih (n / 10) (Nat.div_lt_self (by omega) (by omega))]
      simp only [List.foldl_cons, digitChar_toNat (Nat.mod_lt n (by omega))]
      congr 1
      have hdm : n / 10 * 10 + n % 10 = n := by omega
      have hp : (10 : Nat) ^ (numDigits (n / 10) + 1) = 10 ^ numDigits (n / 10) * 10 := by
        rw [pow_succ]
      rw [hp]
      set k := (10 : Nat) ^ numDigits (n / 10) with hk
      calc (a * k + n / 10) * 10 + (48 + n % 10 - 48)
          = a * (k * 10) + (n / 10 * 10 + n % 10) := by ring_nf; omega
        _ = a * (k * 10) + n := by rw [hdm]

theorem digitsVal_natToChars (n : Nat) : digitsVal (natToChars n) = n := by
  have := foldl_natToCharsAux n [] 0
  simpa [digitsVal, natToChars] using this

theorem parseU32_natToChars {n : Nat} (h : n ≤ U32MAX) :
    parseU32 (natToChars n) = some n := by
  obtain ⟨d, rest, hd, hcons⟩ := natToCharsAux_cons n []
  have hall : (natToChars n).all isDigitChar = true := natToCharsAux_all n [] rfl
  have hplus : ¬ digitChar d = '+' := by
    intro he
    have hdig := isDigitChar_digitChar hd
    rw [he] at hdig
    exact absurd hdig (by decide)
  have hval := digitsVal_natToChars n
  rw [natToChars] at hall hval ⊢
  rw [hcons] at hall hval ⊢
  simp only [parseU32, if_neg hplus]
  rw [if_pos ⟨by simp, hall⟩, hval, if_pos h]

theorem parseU32_le {s : List Char} {v : Nat} (h : parseU32 s = some v) : v ≤ U32MAX := by
  simp only [parseU32] at h
  split_ifs at h with h1 h2
  simp_all

theorem natToChars_all (n : Nat) : (natToChars n).all isDigitChar = true :=
  natToCharsAux_all n [] rfl

theorem natToChars_no_slash (n : Nat) : '/' ∉ natToChars n := by
  intro hmem
  have hall := natToChars_all n
  rw [List.all_eq_true] at hall
  exact absurd (hall _ hmem) (by decide)

/-! ## Lemmas about splitting -/

theorem splitOnChar_of_not_mem {sep : Char} : ∀ {s : List Char}, sep ∉ s →
    splitOnChar sep s = [s]
  | [], _ => rfl
  | c :: rest, h => by
    have hc : ¬ c = sep := fun e => h (e ▸ List.mem_cons_self c rest)
    have hrest : sep ∉ rest := fun hm => h (List.mem_cons_of_mem _ hm)
    simp only [splitOnChar, if_neg hc, splitOnChar_of_not_mem hrest]

theorem splitOnChar_append (b : List Char) {sep : Char} :
    ∀ {a : List Char}, sep ∉ a →
    splitOnChar sep (a ++ sep :: b) = a :: splitOnChar sep b
  | [], _ => by simp [splitOnChar]
  | c :: rest, h => by
    have hc : ¬ c = sep := fun e => h (e ▸ List.mem_cons_self c rest)
    have hrest : sep ∉ rest := fun hm => h (List.mem_cons_of_mem _ hm)
    simp only [List.cons_append, splitOnChar, List.append_eq, if_neg hc,
      splitOnChar_append b hrest]

/-! ## Lemmas about the APE tag operations -/

theorem eqIC_refl (a : List Char) : eqIgnoreAsciiCase a a = true := by
  simp [eqIgnoreAsciiCase]

theorem eqIC_symm {a b : List Char} (h : eqIgnoreAsciiCase a b = true) :
    eqIgnoreAsciiCase b a = true := by
  simp only [eqIgnoreAsciiCase, beq_iff_eq] at h ⊢
  exact h.symm

theorem eqIC_trans {a b c : List Char} (h1 : eqIgnoreAsciiCase a b = true)
    (h2 : eqIgnoreAsciiCase b c = true) : eqIgnoreAsciiCase a c = true := by
  simp only [eqIgnoreAsciiCase, beq_iff_eq] at h1 h2 ⊢
  exact h1.trans h2

theorem ApeTag.get_remove (t : ApeTag) {k key : List Char}
    (h : eqIgnoreAsciiCase k key = true) : (t.remove key).get k = none := by
  rw [ApeTag.get, List.find?_eq_none]
  intro i hi hpi
  rw [ApeTag.remove] at hi
  simp only [List.mem_filter] at hi
  have hf : eqIgnoreAsciiCase i.key key = false := by simpa using hi.2
  rw [eqIC_trans hpi h] at hf
  exact Bool.true_eq_false.mp hf

theorem ApeTag.get_insert_self (t : ApeTag) (v : ApeItem) {k : List Char}
    (h : eqIgnoreAsciiCase k v.key = true) : (t.insert v).get k = some v := by
  rw [ApeTag.insert, ApeTag.get]
  have hnone : (t.remove v.key).items.find? (fun i => eqIgnoreAsciiCase i.key k) = none := by
    have := @ApeTag.get_remove t k v.key h
    rwa [ApeTag.get] at this
  simp only [List.find?_append, hnone, Option.none_or]
  exact List.find?_cons_of_pos _ (eqIC_symm h)

/-- The uniqueness invariant of the APE item list: no two items share a
key under ASCII-case-insensitive comparison. -/
def distinctKeys (t : ApeTag) : Prop :=
  t.items.Pairwise (fun a b => eqIgnoreAsciiCase a.key b.key = false)

theorem distinctKeys_remove {t : ApeTag} (h : distinctKeys t) (key : List Char) :
    distinctKeys (t.remove key) :=
  List.Pairwise.sublist (List.filter_sublist _) h

theorem distinctKeys_insert {t : ApeTag} (h : distinctKeys t) (v : ApeItem) :
    distinctKeys (t.insert v) := by
  rw [ApeTag.insert]
  show List.Pairwise _ (_ ++ [v])
  rw [List.pairwise_append]
  refine ⟨distinctKeys_remove h v.key, by simp, ?_⟩
  intro a ha b hb
  simp only [List.mem_singleton] at hb
  subst hb
  rw [ApeTag.remove] at ha
  simp only [List.mem_filter] at ha
  simpa using ha.2

theorem ApeTag.splitNumPair_insert (t : ApeTag) (key s : List Char) :
    (t.insert (ApeItem.text key s)).splitNumPair key =
      (((splitOnChar '/' s).filterMap parseU32).head?,
       ((splitOnChar '/' s).filterMap parseU32)[1]?) := by
  rw [ApeTag.splitNumPair, ApeTag.get_insert_self _ _ (eqIC_refl key)]
  rfl

theorem ApeTag.splitNumPair_fst_le {t : ApeTag} {key : List Char} {m : Nat}
    (h : (t.splitNumPair key).1 = some m) : m ≤ U32MAX := by
  rw [ApeTag.splitNumPair] at h
  split at h
  · simp only at h
    have hm := List.mem_of_mem_head? h
    rw [List.mem_filterMap] at hm
    obtain ⟨x, _, hx⟩ := hm
    exact parseU32_le hx
  · simp at h

theorem ApeTag.splitNumPair_snd_le {t : ApeTag} {key : List Char} {m : Nat}
    (h : (t.splitNumPair key).2 = some m) : m ≤ U32MAX := by
  rw [ApeTag.splitNumPair] at h
  split at h
  · simp only at h
    rw [List.getElem?_eq_some] at h
    obtain ⟨hlt, rfl⟩ := h
    have hm := List.getElem_mem hlt
    rw [List.mem_filterMap] at hm
    obtain ⟨x, _, hx⟩ := hm
    exact parseU32_le hx
  · simp at h

theorem filterMap_split_single {n : Nat} (h : n ≤ U32MAX) :
    (splitOnChar '/' (natToChars n)).filterMap parseU32 = [n] := by
  rw [splitOnChar_of_not_mem (natToChars_no_slash n)]
  simp [parseU32_natToChars h]

theorem filterMap_split_pair {m k : Nat} (hm : m ≤ U32MAX) (hk : k ≤ U32MAX) :
    (splitOnChar '/' (natToChars m ++ '/' :: natToChars k)).filterMap parseU32 = [m, k] := by
  rw [splitOnChar_append _ (natToChars_no_slash m),
    splitOnChar_of_not_mem (natToChars_no_slash k)]
  simp [parseU32_natToChars hm, parseU32_natToChars hk]

theorem ApeTag.splitNumPair_insert_single (t : ApeTag) (key : List Char) {n : Nat}
    (h : n ≤ U32MAX) :
    (t.insert (ApeItem.text key (natToChars n))).splitNumPair key = (some n, none) := by
  rw [ApeTag.splitNumPair_insert, filterMap_split_single h]
  rfl

theorem ApeTag.splitNumPair_insert_pair (t : ApeTag) (key : List Char) {m k : Nat}
    (hm : m ≤ U32MAX) (hk : k ≤ U32MAX) :
    (t.insert (ApeItem.text key (natToChars m ++ '/' :: natToChars k))).splitNumPair key
      = (some m, some k) := by
  rw [ApeTag.splitNumPair_insert, filterMap_split_pair hm hk]
  rfl

theorem ApeTag.splitNumPair_of_get_none {t : ApeTag} {key : List Char}
    (h : t.get key = none) : t.splitNumPair key = (none, none) := by
  rw [ApeTag.splitNumPair, h]

theorem ApeTag.track_setTrack (t : ApeTag) {n : Nat} (hn : n ≤ U32MAX) :
    (t.setTrack n).track = some n ∧ (t.setTrack n).trackTotal = t.trackTotal := by
  rw [ApeTag.setTrack]
  cases h : t.trackTotal with
  | none =>
    rw [ApeTag.insertNumberPair]
    show ((t.insert (ApeItem.text trackKey (natToChars n))).splitNumPair trackKey).1 = some n
      ∧ ((t.insert (ApeItem.text trackKey (natToChars n))).splitNumPair trackKey).2 = none
    rw [ApeTag.splitNumPair_insert_single t trackKey hn]
    exact ⟨rfl, rfl⟩
  | some m =>
    have hm : m ≤ U32MAX := ApeTag.splitNumPair_snd_le h
    rw [ApeTag.insertNumberPair]
    show ((t.insert (ApeItem.text trackKey
        (natToChars n ++ '/' :: natToChars m))).splitNumPair trackKey).1 = some n
      ∧ ((t.insert (ApeItem.text trackKey
        (natToChars n ++ '/' :: natToChars m))).splitNumPair trackKey).2 = some m
    rw [ApeTag.splitNumPair_insert_pair t trackKey hn hm]
    exact ⟨rfl, rfl⟩

theorem ApeTag.track_setTrackTotal (t : ApeTag) {tt : Nat} (htt : tt ≤ U32MAX) :
    (t.setTrackTotal tt).track = some (t.track.getD 0)
      ∧ (t.setTrackTotal tt).trackTotal = some tt := by
  rw [ApeTag.setTrackTotal]
  cases h : t.track with
  | none =>
    rw [ApeTag.insertNumberPair]
    show ((t.insert (ApeItem.text trackKey
        (natToChars 0 ++ '/' :: natToChars tt))).splitNumPair trackKey).1
          = some (Option.getD none 0)
      ∧ ((t.insert (ApeItem.text trackKey
        (natToChars 0 ++ '/' :: natToChars tt))).splitNumPair trackKey).2 = some tt
    rw [ApeTag.splitNumPair_insert_pair t trackKey (by simp [U32MAX]) htt]
    exact ⟨rfl, rfl⟩
  | some m =>
    have hm : m ≤ U32MAX := ApeTag.splitNumPair_fst_le h
    rw [ApeTag.insertNumberPair]
    show ((t.insert (ApeItem.text trackKey
        (natToChars m ++ '/' :: natToChars tt))).splitNumPair trackKey).1
          = some (Option.getD (some m) 0)
      ∧ ((t.insert (ApeItem.text trackKey
        (natToChars m ++ '/' :: natToChars tt))).splitNumPair trackKey).2 = some tt
    rw [ApeTag.splitNumPair_insert_pair t trackKey hm htt]
    exact ⟨rfl, rfl⟩

theorem ApeTag.track_removeTrackTotal (t : ApeTag) {m : Nat} (h : t.track = some m) :
    t.removeTrackTotal.track = some m := by
  rw [ApeTag.removeTrackTotal, h]
  have hm : m ≤ U32MAX := ApeTag.splitNumPair_fst_le h
  show (((t.remove trackKey).insert
    (ApeItem.text trackKey (natToChars m))).splitNumPair trackKey).1 = some m
  rw [ApeTag.splitNumPair_insert_single _ trackKey hm]

/-! ## Claims C2, C5, C6, C7 -/


theorem collectParsed_eq_filterMap (l : List (List Char)) :
    collectParsed l = l.filterMap parseU32 := by
  induction l with
  | nil => rfl
  | cons seg rest ih =>
    rw [collectParsed, List.filterMap_cons]
    cases h : parseU32 seg <;> simp [h, ih]

/-- C2, counterexample: on the Track text "a/5" the piece before the first
slash does not parse, yet `track()` returns `Some 5` (the value parsed from
the piece AFTER the slash), and the piece after the first slash parses as
5 yet `track_total()` returns `None`.  So splitting does not parse on the
first slash as claimed: segments other than the first two parseable ones
do contribute. -/
theorem claim_C2_counterexample :
    (ApeTag.mk false [ApeItem.text trackKey ("a/5".data)]).get trackKey
        = some (ApeItem.text trackKey ("a/5".data))
    ∧ (splitFirst '/' ("a/5".data)).1 = ("a".data)
    ∧ parseU32 ("a".data) = none
    ∧ (splitFirst '/' ("a/5".data)).2 = some ("5".data)
    ∧ parseU32 ("5".data) = some 5
    ∧ (ApeTag.mk false [ApeItem.text trackKey ("a/5".data)]).track = some 5
    ∧ (ApeTag.mk false [ApeItem.text trackKey ("a/5".data)]).trackTotal = none := by
  decide

/-- C2, amended: for every ApeTag whose Track item holds text `s`,
`track()` returns the first slash-separated segment of `s` that parses as
a `u32` and `track_total()` the second such segment; unparseable segments
are skipped rather than acting as delimiters. -/
theorem claim_C2 (t : ApeTag) (item : ApeItem) (s : List Char)
    (hget : t.get trackKey = some item) (hval : item.value = ItemValue.text s) :
    t.track = (collectParsed (splitOnChar '/' s)).head?
      ∧ t.trackTotal = (collectParsed (splitOnChar '/' s))[1]? := by
  obtain ⟨ro, key, value⟩ := item
  simp only at hval
  subst hval
  rw [ApeTag.track, ApeTag.trackTotal, ApeTag.splitNumPair, hget,
    collectParsed_eq_filterMap]
  exact ⟨rfl, rfl⟩

/-- C2, witness: the amended claim evaluated on the Track text "3/x/4",
whose parseable segments are 3 and 4. -/
theorem claim_C2_witness :
    (ApeTag.mk false [ApeItem.text trackKey ("3/x/4".data)]).track
        = (collectParsed (splitOnChar '/' ("3/x/4".data))).head?
    ∧ (ApeTag.mk false [ApeItem.text trackKey ("3/x/4".data)]).trackTotal
        = (collectParsed (splitOnChar '/' ("3/x/4".data)))[1]?
    ∧ (collectParsed (splitOnChar '/' ("3/x/4".data))) = [3, 4] :=
  ⟨(claim_C2 (ApeTag.mk false [ApeItem.text trackKey ("3/x/4".data)])
      (ApeItem.text trackKey ("3/x/4".data)) ("3/x/4".data) (by decide) rfl).1,
   (claim_C2 (ApeTag.mk false [ApeItem.text trackKey ("3/x/4".data)])
      (ApeItem.text trackKey ("3/x/4".data)) ("3/x/4".data) (by decide) rfl).2,
   by decide⟩

/-- C5: `remove_disk_total` repopulates the Disc item from the tag's
TRACK number: when a track number `n` is set, afterwards `disk()` returns
`Some n` regardless of any previously set disk number; when no track
number is set the Disc item is removed entirely, so a previously set disk
number is lost. -/
theorem claim_C5 (t : ApeTag) :
    (∀ n, t.track = some n → t.removeDiskTotal.disk = some n)
    ∧ (t.track = none →
        t.removeDiskTotal.get discKey = none ∧ t.removeDiskTotal.disk = none) := by
  constructor
  · intro n h
    have hn : n ≤ U32MAX := ApeTag.splitNumPair_fst_le h
    rw [ApeTag.removeDiskTotal, h]
    show (((t.remove discKey).insert
      (ApeItem.text discKey (natToChars n))).splitNumPair discKey).1 = some n
    rw [ApeTag.splitNumPair_insert_single _ discKey hn]
  · intro h
    rw [ApeTag.removeDiskTotal, h]
    refine ⟨ApeTag.get_remove t (eqIC_refl discKey), ?_⟩
    show ((t.remove discKey).splitNumPair discKey).1 = none
    rw [ApeTag.splitNumPair_of_get_none (ApeTag.get_remove t (eqIC_refl discKey))]

/-- C5, witness: a tag with track 7 and disc pair "2/5"; after
`remove_disk_total` the disk number reads back as 7. -/
theorem claim_C5_witness :
    (ApeTag.mk false [ApeItem.text trackKey ("7".data),
        ApeItem.text discKey ("2/5".data)]).track = some 7
    ∧ (ApeTag.mk false [ApeItem.text trackKey ("7".data),
        ApeItem.text discKey ("2/5".data)]).removeDiskTotal.disk = some 7 :=
  ⟨by decide, (claim_C5 _).1 7 (by decide)⟩

/-- C6: `insert` removes every item whose key matches the new key
case-insensitively and then appends the item; `insert` and `remove`
preserve the case-insensitive key uniqueness invariant; and after
inserting an item, `get` on any casing of its key returns that item. -/
theorem claim_C6 (t : ApeTag) (v : ApeItem) :
    ((t.insert v).items = (t.remove v.key).items ++ [v])
    ∧ (distinctKeys t → distinctKeys (t.insert v))
    ∧ (∀ key, distinctKeys t → distinctKeys (t.remove key))
    ∧ (∀ k, eqIgnoreAsciiCase k v.key = true → (t.insert v).get k = some v) :=
  ⟨rfl, fun h => distinctKeys_insert h v, fun key h => distinctKeys_remove h key,
   fun _ hk => ApeTag.get_insert_self t v hk⟩

/-- C6, witness: inserting an item keyed "TRACK" into a distinct-keyed
tag and reading it back under the casing "track". -/
theorem claim_C6_witness :
    distinctKeys (ApeTag.mk false [ApeItem.text ("Artist".data) ("x".data)])
    ∧ ((ApeTag.mk false [ApeItem.text ("Artist".data) ("x".data)]).insert
        (ApeItem.text ("TRACK".data) ("9".data))).get ("track".data)
      = some (ApeItem.text ("TRACK".data) ("9".data)) :=
  ⟨by simp [distinctKeys], (claim_C6 _ _).2.2.2 ("track".data) (by decide)⟩

/-- C7: `set_track(n)` on a tag with no track total gives
`track() = Some n` and `track_total() = None`; after `set_track(n)` and
`set_track_total(t)` in either order both read back independently; and
`remove_track_total` preserves a previously set track number. -/
theorem claim_C7 (t : ApeTag) (n tt : Nat) (hn : n ≤ U32MAX) (htt : tt ≤ U32MAX) :
    (t.trackTotal = none →
      (t.setTrack n).track = some n ∧ (t.setTrack n).trackTotal = none)
    ∧ ((t.setTrack n).setTrackTotal tt).track = some n
    ∧ ((t.setTrack n).setTrackTotal tt).trackTotal = some tt
    ∧ ((t.setTrackTotal tt).setTrack n).track = some n
    ∧ ((t.setTrackTotal tt).setTrack n).trackTotal = some tt
    ∧ (∀ m, t.track = some m → t.removeTrackTotal.track = some m) := by
  obtain ⟨h1, h2⟩ := ApeTag.track_setTrack t hn
  refine ⟨fun h0 => ⟨h1, h2.trans h0⟩, ?_, ?_, ?_, ?_,
    fun m hm => ApeTag.track_removeTrackTotal t hm⟩
  · have h3 := (ApeTag.track_setTrackTotal (t.setTrack n) htt).1
    rw [h1] at h3
    simpa using h3
  · exact (ApeTag.track_setTrackTotal (t.setTrack n) htt).2
  · exact (ApeTag.track_setTrack (t.setTrackTotal tt) hn).1
  · exact ((ApeTag.track_setTrack (t.setTrackTotal tt) hn).2).trans
      (ApeTag.track_setTrackTotal t htt).2

/-- C7, witness: track 3 and total 12 on the empty tag. -/
theorem claim_C7_witness :
    3 ≤ U32MAX ∧ 12 ≤ U32MAX
    ∧ ((ApeTag.new.setTrack 3).setTrackTotal 12).track = some 3
    ∧ ((ApeTag.new.setTrack 3).setTrackTotal 12).trackTotal = some 12 :=
  ⟨by decide, by decide,
   (claim_C7 ApeTag.new 3 12 (by decide) (by decide)).2.1,
   (claim_C7 ApeTag.new 3 12 (by decide) (by decide)).2.2.1⟩


/-! ## Claim C10 -/


theorem splitFirst_eq_self {sep : Char} : ∀ {s : List Char},
    (splitFirst sep s).2 = none → (splitFirst sep s).1 = s
  | [], _ => rfl
  | c :: rest, h => by
    by_cases hc : c = sep
    · simp [splitFirst, hc] at h
    · simp only [splitFirst, if_neg hc] at h ⊢
      rw [splitFirst_eq_self h]

theorem splitPair_eq (content : List Char) (tag : List TagItem) (ck tk : ItemKey) :
    splitPair content tag ck tk = some (tag ++ explodedPair ck tk content) := by
  rw [splitPair, explodedPair]
  rcases hp : splitFirst '/' content with ⟨c, t⟩
  cases t <;> simp [hp, List.append_assoc]

/-- C10, counterexample: the pair text "abc/def", whose current component
does not parse as a number, is still exploded into two Unified items
("abc" under the current key and "def" under the total key) instead of
being passed through verbatim as a single item. -/
theorem claim_C10_counterexample :
    splitTagItems [ApeItem.text trackKey ("abc/def".data)] []
        = [{ key := ItemKey.trackNumber, value := ItemValue.text ("abc".data) },
           { key := ItemKey.trackTotal, value := ItemValue.text ("def".data) }]
    ∧ parseU32 ("abc".data) = none
    ∧ splitTagItems [ApeItem.text trackKey ("abc/def".data)] []
        ≠ [{ key := ItemKey.trackNumber, value := ItemValue.text ("abc/def".data) }] := by
  decide

/-- C10, amended: `split_tag` always explodes a number-pair text item
(track, disc or movement, current or total key) on the first slash with
no numeric validation: the text before the first slash goes under the
current key and, when a slash is present, the text after it under the
total key; a pair value containing no slash passes through verbatim as a
single Unified item under the current key. -/
theorem claim_C10 (rest : List ApeItem) (acc : List TagItem) (it : ApeItem)
    (v : List Char) (hval : it.value = ItemValue.text v) :
    (itemKeyFromApeKey it.key = ItemKey.trackNumber
        ∨ itemKeyFromApeKey it.key = ItemKey.trackTotal →
      splitTagItems (it :: rest) acc
        = splitTagItems rest (acc ++ explodedPair ItemKey.trackNumber ItemKey.trackTotal v))
    ∧ (itemKeyFromApeKey it.key = ItemKey.discNumber
        ∨ itemKeyFromApeKey it.key = ItemKey.discTotal →
      splitTagItems (it :: rest) acc
        = splitTagItems rest (acc ++ explodedPair ItemKey.discNumber ItemKey.discTotal v))
    ∧ (itemKeyFromApeKey it.key = ItemKey.movementNumber
        ∨ itemKeyFromApeKey it.key = ItemKey.movementTotal →
      splitTagItems (it :: rest) acc
        = splitTagItems rest
            (acc ++ explodedPair ItemKey.movementNumber ItemKey.movementTotal v))
    ∧ ((splitFirst '/' v).2 = none →
        ∀ ck tk : ItemKey, explodedPair ck tk v
          = [{ key := ck, value := ItemValue.text v }]) := by
  obtain ⟨ro, key, value⟩ := it
  simp only at hval
  subst hval
  refine ⟨?_, ?_, ?_, ?_⟩
  · intro hk
    rcases hk with hk | hk <;> simp only at hk <;> rw [splitTagItems, hk]
    · show (match splitPair v acc ItemKey.trackNumber ItemKey.trackTotal with
            | some tag2 => splitTagItems rest tag2
            | none =>
              splitTagItems rest
                (acc ++ [TagItem.mk ItemKey.trackNumber (ItemValue.text v)])) = _
      rw [splitPair_eq]
    · show (match splitPair v acc ItemKey.trackNumber ItemKey.trackTotal with
            | some tag2 => splitTagItems rest tag2
            | none =>
              splitTagItems rest
                (acc ++ [TagItem.mk ItemKey.trackTotal (ItemValue.text v)])) = _
      rw [splitPair_eq]
  · intro hk
    rcases hk with hk | hk <;> simp only at hk <;> rw [splitTagItems, hk]
    · show (match splitPair v acc ItemKey.discNumber ItemKey.discTotal with
            | some tag2 => splitTagItems rest tag2
            | none =>
              splitTagItems rest
                (acc ++ [TagItem.mk ItemKey.discNumber (ItemValue.text v)])) = _
      rw [splitPair_eq]
    · show (match splitPair v acc ItemKey.discNumber ItemKey.discTotal with
            | some tag2 => splitTagItems rest tag2
            | none =>
              splitTagItems rest
                (acc ++ [TagItem.mk ItemKey.discTotal (ItemValue.text v)])) = _
      rw [splitPair_eq]
  · intro hk
    rcases hk with hk | hk <;> simp only at hk <;> rw [splitTagItems, hk]
    · show (match splitPair v acc ItemKey.movementNumber ItemKey.movementTotal with
            | some tag2 => splitTagItems rest tag2
            | none =>
              splitTagItems rest
                (acc ++ [TagItem.mk ItemKey.movementNumber (ItemValue.text v)])) = _
      rw [splitPair_eq]
    · show (match splitPair v acc ItemKey.movementNumber ItemKey.movementTotal with
            | some tag2 => splitTagItems rest tag2
            | none =>
              splitTagItems rest
                (acc ++ [TagItem.mk ItemKey.movementTotal (ItemValue.text v)])) = _
      rw [splitPair_eq]
  · intro hnone ck tk
    rw [explodedPair]
    rcases hp : splitFirst '/' v with ⟨c, t⟩
    rw [hp] at hnone
    simp only at hnone
    subst hnone
    have hc : c = v := by
      have := @splitFirst_eq_self '/' v (by rw [hp])
      rw [hp] at this
      exact this
    rw [hc]

/-- C10, witness: the amended claim on a Disc pair item "2/5" (exploded
into disc number and disc total with no parse check), a Movement item,
and a Track item with the slash-free text "5" (passed through verbatim). -/
theorem claim_C10_witness :
    splitTagItems [ApeItem.text discKey ("2/5".data)] []
        = splitTagItems [] ([] ++ explodedPair ItemKey.discNumber ItemKey.discTotal ("2/5".data))
    ∧ splitTagItems [ApeItem.text ("Movement".data) ("a/b".data)] []
        = splitTagItems []
            ([] ++ explodedPair ItemKey.movementNumber ItemKey.movementTotal ("a/b".data))
    ∧ explodedPair ItemKey.trackNumber ItemKey.trackTotal ("5".data)
        = [{ key := ItemKey.trackNumber, value := ItemValue.text ("5".data) }] :=
  ⟨(claim_C10 [] [] (ApeItem.text discKey ("2/5".data)) ("2/5".data) rfl).2.1
      (Or.inl (by decide)),
   (claim_C10 [] [] (ApeItem.text ("Movement".data) ("a/b".data)) ("a/b".data) rfl).2.2.1
      (Or.inl (by decide)),
   (claim_C10 [] [] (ApeItem.text trackKey ("5".data)) ("5".data) rfl).2.2.2
      (by decide) ItemKey.trackNumber ItemKey.trackTotal⟩

/-! ## Claims C9 and C3 -/


/-- C9: two ExtendedUrlFrame values are equal exactly when their
descriptions are equal, independent of encoding and content, and equal
descriptions give equal hash values under every hasher (only the
description is fed to the hasher). -/
theorem claim_C9 (a b : ExtendedUrlFrame) :
    (ExtendedUrlFrame.beqByDescription a b = true ↔ a.description = b.description)
    ∧ (a.description = b.description →
        ∀ {α : Type} (h : List Char → α),
          ExtendedUrlFrame.hashBy h a = ExtendedUrlFrame.hashBy h b) := by
  constructor
  · simp [ExtendedUrlFrame.beqByDescription]
  · intro hd α h
    simp [ExtendedUrlFrame.hashBy, hd]

/-- C9, witness: two frames with the same description but different
encodings and contents compare equal and hash identically. -/
theorem claim_C9_witness :
    ExtendedUrlFrame.beqByDescription
      { encoding := TextEncoding.latin1, description := ("d".data), content := ("a".data) }
      { encoding := TextEncoding.utf16, description := ("d".data), content := ("b".data) }
        = true
    ∧ ExtendedUrlFrame.hashBy List.length
        { encoding := TextEncoding.latin1, description := ("d".data), content := ("a".data) }
      = ExtendedUrlFrame.hashBy List.length
        { encoding := TextEncoding.utf16, description := ("d".data), content := ("b".data) } :=
  ⟨(claim_C9
      { encoding := TextEncoding.latin1, description := ("d".data), content := ("a".data) }
      { encoding := TextEncoding.utf16, description := ("d".data), content := ("b".data) }).1.mpr
      (by decide),
   (claim_C9
      { encoding := TextEncoding.latin1, description := ("d".data), content := ("a".data) }
      { encoding := TextEncoding.utf16, description := ("d".data), content := ("b".data) }).2
      (by decide) List.length⟩

/-- C3: the code bug behind the claim.  For the frame with encoding
UTF-16, description "d" and content "a", `as_bytes` emits the content
UTF-16 encoded with a byte order mark (`encode_text` is called with
`self.encoding`), not as raw Latin-1 bytes; and since `parse` always
decodes the content as Latin-1, re-parsing the serialized bytes yields
content `[255, 254, 97, 0]` instead of "a" — the round trip of the claim
fails. -/
theorem claim_C3 :
    ExtendedUrlFrame.asBytes
      { encoding := TextEncoding.utf16, description := ("d".data), content := ("a".data) }
        = [1, 255, 254, 100, 0, 0, 0, 255, 254, 97, 0]
    ∧ ExtendedUrlFrame.asBytes
      { encoding := TextEncoding.utf16, description := ("d".data), content := ("a".data) }
        ≠ 1 :: (encodeText ("d".data) TextEncoding.utf16 true
            ++ encodeText ("a".data) TextEncoding.latin1 false)
    ∧ ExtendedUrlFrame.parse
        (ExtendedUrlFrame.asBytes
          { encoding := TextEncoding.utf16, description := ("d".data), content := ("a".data) })
        Id3v2Version.v4
        = .ok (some { encoding := TextEncoding.utf16, description := ("d".data),
                      content := [Char.ofNat 255, Char.ofNat 254, 'a', Char.ofNat 0] })
    ∧ [Char.ofNat 255, Char.ofNat 254, 'a', Char.ofNat 0] ≠ ("a".data) :=
  ⟨by decide, by decide, rfl, by decide⟩


/-! ## Claim C1 -/


theorem readU32LE_u32le {n : Nat} (hn : n < 4294967296) (r : List Nat) :
    readU32LE (u32le n ++ r) = .ok (n, r) := by
  simp only [u32le, List.cons_append, List.nil_append, readU32LE]
  congr 2
  omega

theorem readKeyBytes_append {k : List Nat} (hk : 0 ∉ k) (r : List Nat) :
    readKeyBytes (k ++ 0 :: r) = .ok (k, r) := by
  induction k with
  | nil => rfl
  | cons b bs ih =>
    have hbs : 0 ∉ bs := fun m => hk (List.mem_cons_of_mem _ m)
    cases b with
    | zero => simp at hk
    | succ m =>
      rw [List.cons_append, readKeyBytes, ih hbs]
      exact fun h => Nat.succ_ne_zero m h

/-- C1, counterexample: (1) a record whose key is the reserved "TAG" is
a hard decode error, not a warning-skip; (2) a record with a 1-byte key
is skipped without consuming its 9 declared value bytes, so a following
well-formed record (key "AB") is lost — the parse succeeds with an empty
item list; (3) that same well-formed record parses fine on its own, so it
was corrupted by the misaligned skip. -/
theorem claim_C1_counterexample :
    readApeTagWithHeader { size := 100, item_count := 1 }
      [1, 0, 0, 0, 0, 0, 0, 0, 84, 65, 71, 0, 65] = .error ApeErr.illegalKey
    ∧ readApeTagWithHeader { size := 100, item_count := 2 }
      [9, 0, 0, 0, 0, 0, 0, 0, 97, 0,
       1, 0, 0, 0, 0, 0, 0, 0, 0,
       1, 0, 0, 0, 0, 0, 0, 0, 65, 66, 0, 66]
      = .ok ({ read_only := false, items := [] }, [])
    ∧ readApeTagWithHeader { size := 100, item_count := 1 }
      [1, 0, 0, 0, 0, 0, 0, 0, 65, 66, 0, 66]
      = .ok ({ read_only := false,
               items := [{ read_only := false, key := ("AB".data),
                           value := ItemValue.text ("B".data) }] }, []) :=
  ⟨rfl, rfl, rfl⟩

/-- C1, amended: at any iteration of the item loop with at least 11 bytes
of declared size remaining, a record whose key is case-insensitively a
reserved key makes the whole read fail with a hard decode error; a record
with a zero value size or a key shorter than 2 or longer than 255 bytes
is skipped with a warning, but the skip does not consume the record's
value bytes — the loop continues at the first byte of the skipped value,
so subsequent records are parsed from those bytes. -/
theorem claim_C1 (fuel rem vs flags : Nat) (keyBytes value rest : List Nat)
    (tag : ApeTag) (key : List Char)
    (hrem : 11 ≤ rem) (hvs : vs ≤ rem) (hvs32 : vs < 4294967296)
    (hfl : flags < 4294967296) (hkz : 0 ∉ keyBytes)
    (hdec : utf8decode keyBytes = some key) :
    ((key.map upperChar) ∈ INVALID_KEYS →
      readApeItemsLoop (fuel + 1) rem
        (u32le vs ++ u32le flags ++ keyBytes ++ 0 :: (value ++ rest)) tag
        = .error ApeErr.illegalKey)
    ∧ ((key.map upperChar) ∉ INVALID_KEYS →
        (vs = 0 ∨ keyBytes.length < 2 ∨ 255 < keyBytes.length) →
        readApeItemsLoop (fuel + 1) rem
          (u32le vs ++ u32le flags ++ keyBytes ++ 0 :: (value ++ rest)) tag
          = readApeItemsLoop fuel (rem - 4) (value ++ rest) tag) := by
  have hassoc : u32le vs ++ u32le flags ++ keyBytes ++ 0 :: (value ++ rest)
      = u32le vs ++ (u32le flags ++ (keyBytes ++ 0 :: (value ++ rest))) := by
    simp [List.append_assoc]
  rw [readApeItemsLoop, if_neg (show ¬ rem < 11 by omega), hassoc]
  simp only [readU32LE_u32le hvs32]
  rw [if_neg (show ¬ rem < vs by omega)]
  simp only [readU32LE_u32le hfl, readKeyBytes_append hkz, hdec]
  constructor
  · intro hmem
    rw [if_pos hmem]
  · intro hmem hskip
    rw [if_neg hmem, if_pos hskip]


/-- C1, witness: one loop step on a record with reserved key "TAG" errors
out, and one loop step on a record with the 1-byte key "a" skips to the
unconsumed value byte. -/
theorem claim_C1_witness :
    readApeItemsLoop (0 + 1) 11
      (u32le 1 ++ u32le 0 ++ [84, 65, 71] ++ 0 :: ([] ++ [])) {}
      = .error ApeErr.illegalKey
    ∧ readApeItemsLoop (0 + 1) 11
      (u32le 1 ++ u32le 0 ++ [97] ++ 0 :: ([66] ++ [])) {}
      = readApeItemsLoop 0 (11 - 4) ([66] ++ []) {} :=
  ⟨(claim_C1 0 11 1 0 [84, 65, 71] [] [] {} ("TAG".data) (by decide) (by decide)
      (by decide) (by decide) (by decide) (by decide)).1 (by decide),
   (claim_C1 0 11 1 0 [97] [66] [] {} ("a".data) (by decide) (by decide)
      (by decide) (by decide) (by decide) (by decide)).2 (by decide) (by decide)⟩


/-! ## Claims C8 and C4 -/

/-- C8, counterexample: a stream that begins with a valid leading ID3v2
tag is not rejected even though its first four bytes are not the fLaC
marker: read_from skips the tag (find_id3v2, read.rs lines 51-58) and
succeeds on the following marker and STREAMINFO block. -/
theorem claim_C8_counterexample :
    @flacReadFrom Unit Unit Unit Unit (fun _ _ => Except.ok ()) (fun _ _ => Except.ok ())
        (fun _ _ => Except.ok ()) (fun _ _ => Except.ok ())
        { parsing_mode := ParsingMode.strict, read_properties := false }
        ([73, 68, 51, 4, 0, 0, 0, 0, 0, 1, 99]
          ++ [102, 76, 97, 67, 128, 0, 0, 18] ++ List.replicate 18 0)
      = .ok { id3v2_tag := some (), vorbis_comments_tag := none, pictures := [],
              properties := none }
    ∧ (([73, 68, 51, 4, 0, 0, 0, 0, 0, 1, 99]
          ++ [102, 76, 97, 67, 128, 0, 0, 18] ++ (List.replicate 18 0 : List Nat)).take 4
        ≠ [102, 76, 97, 67]) :=
  ⟨rfl, by decide⟩

theorem findId3v2_not_id3 {b0 b1 b2 : Nat} (h : ¬ (b0 = 73 ∧ b1 = 68 ∧ b2 = 51))
    (rest : List Nat) :
    findId3v2 (b0 :: b1 :: b2 :: rest) = .ok (none, b0 :: b1 :: b2 :: rest) := by
  rw [findId3v2, if_neg h]

theorem flacReadFrom_eq_blocks {V P Pr I : Type}
    (rc : List Nat → ParsingMode → Except FlacErr V)
    (pp : List Nat → ParsingMode → Except FlacErr P)
    (rp : List Nat → Nat → Except FlacErr Pr)
    (pid : List Nat → ParsingMode → Except FlacErr I)
    (opts : ParseOptions) {bytes : List Nat} {found : Option (List Nat)}
    {bytes2 : List Nat}
    (hfind : findId3v2 bytes = .ok (found, bytes2))
    (hid3 : ∀ c, found = some c → ∃ t, pid c opts.parsing_mode = Except.ok t) :
    ∃ id3tag : Option I,
      flacReadFrom rc pp rp pid opts bytes
        = flacReadFromBlocks rc pp rp opts id3tag bytes2 := by
  rw [flacReadFrom]
  cases found with
  | none =>
    simp only [hfind]
    exact ⟨none, rfl⟩
  | some c =>
    obtain ⟨t, ht⟩ := hid3 c rfl
    simp only [hfind, ht]
    exact ⟨some t, rfl⟩

theorem flacReadFrom_not_id3 {V P Pr I : Type}
    (rc : List Nat → ParsingMode → Except FlacErr V)
    (pp : List Nat → ParsingMode → Except FlacErr P)
    (rp : List Nat → Nat → Except FlacErr Pr)
    (pid : List Nat → ParsingMode → Except FlacErr I)
    (opts : ParseOptions) {b0 b1 b2 : Nat} (h : ¬ (b0 = 73 ∧ b1 = 68 ∧ b2 = 51))
    (rest : List Nat) :
    flacReadFrom rc pp rp pid opts (b0 :: b1 :: b2 :: rest)
      = flacReadFromBlocks rc pp rp opts none (b0 :: b1 :: b2 :: rest) := by
  rw [flacReadFrom]
  simp only [findId3v2_not_id3 h]

/-- C8, amended: the marker and STREAMINFO checks apply to the stream
AFTER the optional leading ID3v2 tag.  In both parsing modes, when the
probe leaves the stream at bytes `b0 b1 b2 b3 ...` (and a found ID3v2
tag parses), read_from returns a hard decode error when those four bytes
are not the literal fLaC marker, when the metadata block following them
is not of kind STREAMINFO, or when that STREAMINFO content is shorter
than 18 bytes. -/
theorem claim_C8 {V P Pr I : Type}
    (readComments : List Nat → ParsingMode → Except FlacErr V)
    (parsePicture : List Nat → ParsingMode → Except FlacErr P)
    (readProps : List Nat → Nat → Except FlacErr Pr)
    (parseId3 : List Nat → ParsingMode → Except FlacErr I)
    (opts : ParseOptions) (bytes : List Nat) (found : Option (List Nat))
    (b0 b1 b2 b3 : Nat) (rest : List Nat)
    (hfind : findId3v2 bytes = .ok (found, b0 :: b1 :: b2 :: b3 :: rest))
    (hid3 : ∀ c, found = some c → ∃ t, parseId3 c opts.parsing_mode = Except.ok t) :
    (¬ (b0 = 102 ∧ b1 = 76 ∧ b2 = 97 ∧ b3 = 67) →
      flacReadFrom readComments parsePicture readProps parseId3 opts bytes
        = .error FlacErr.missingMarker)
    ∧ (b0 = 102 ∧ b1 = 76 ∧ b2 = 97 ∧ b3 = 67 →
      ∀ si rest2, Block.read rest = .ok (si, rest2) → si.ty ≠ BLOCK_ID_STREAMINFO →
        flacReadFrom readComments parsePicture readProps parseId3 opts bytes
          = .error FlacErr.missingStreamInfo)
    ∧ (b0 = 102 ∧ b1 = 76 ∧ b2 = 97 ∧ b3 = 67 →
      ∀ si rest2, Block.read rest = .ok (si, rest2) → si.ty = BLOCK_ID_STREAMINFO →
        si.content.length < 18 →
        flacReadFrom readComments parsePicture readProps parseId3 opts bytes
          = .error FlacErr.badStreamInfoSize) := by
  obtain ⟨id3tag, heq⟩ :=
    flacReadFrom_eq_blocks readComments parsePicture readProps parseId3 opts hfind hid3
  refine ⟨?_, ?_, ?_⟩
  · intro h
    rw [heq, flacReadFromBlocks, if_neg h]
  · intro hm si rest2 hread hty
    obtain ⟨rfl, rfl, rfl, rfl⟩ := hm
    rw [heq, flacReadFromBlocks, if_pos (by simp)]
    simp only [hread]
    rw [if_pos hty]
  · intro hm si rest2 hread hty hlen
    obtain ⟨rfl, rfl, rfl, rfl⟩ := hm
    rw [heq, flacReadFromBlocks, if_pos (by simp)]
    simp only [hread]
    rw [if_neg (by simp [hty]), if_pos hlen]

/-- C8, witness: a stream whose first byte is not the marker byte (and
that carries no leading ID3v2 tag) fails with the missing-marker decode
error. -/
theorem claim_C8_witness :
    @flacReadFrom Unit Unit Unit Unit (fun _ _ => Except.ok ()) (fun _ _ => Except.ok ())
      (fun _ _ => Except.ok ()) (fun _ _ => Except.ok ())
      { parsing_mode := ParsingMode.strict, read_properties := false }
      [120, 76, 97, 67] = .error FlacErr.missingMarker :=
  (claim_C8 (fun _ _ => Except.ok ()) (fun _ _ => Except.ok ()) (fun _ _ => Except.ok ())
    (fun _ _ => Except.ok ())
    { parsing_mode := ParsingMode.strict, read_properties := false }
    [120, 76, 97, 67] none 120 76 97 67 [] rfl
    (fun _ h => by cases h)).1 (by decide)

theorem Block.read_encodeBlock {b : Block} (hwf : blockWF b) (r : List Nat) :
    Block.read (encodeBlock b ++ r) = .ok (b, r) := by
  obtain ⟨last, ty, content⟩ := b
  obtain ⟨hty, hlen⟩ := hwf
  simp only [blockWF] at hty hlen
  have harith : content.length / 65536 % 256 * 65536 + content.length / 256 % 256 * 256
      + content.length % 256 = content.length := by omega
  simp only [encodeBlock, List.cons_append, List.nil_append, List.append_assoc]
  rw [Block.read]
  simp only [harith]
  rw [if_neg (by rw [List.length_append]; omega)]
  rw [List.take_left, List.drop_left]
  cases last <;> simp_all

theorem readBlocksLoop_encode {V P : Type}
    (rc : List Nat → ParsingMode → Except FlacErr V)
    (pp : List Nat → ParsingMode → Except FlacErr P) (mode : ParsingMode) :
    ∀ (bs : List Block), ChainLast bs → (∀ b ∈ bs, blockWF b) →
    ∀ (v : Option V) (pics : List P) (junk : List Nat),
    readBlocksLoop rc pp mode (encodeBlocks bs ++ junk) v pics
      = match processChain rc pp mode bs v pics with
        | .error e => .error e
        | .ok (v2, p2) => .ok (v2, p2, junk) := by
  intro bs hchain
  induction hchain with
  | single b hlast =>
    intro hwf v pics junk
    have hb := hwf b (by simp)
    show readBlocksLoop rc pp mode ((encodeBlock b ++ []) ++ junk) v pics = _
    rw [List.append_nil, readBlocksLoop]
    split
    · next e heq =>
      rw [Block.read_encodeBlock hb] at heq
      simp at heq
    next block rest heq =>
    rw [Block.read_encodeBlock hb] at heq
    simp only [Except.ok.injEq, Prod.mk.injEq] at heq
    obtain ⟨hbk, hrt⟩ := heq
    subst hbk
    subst hrt
    rw [processChain]
    by_cases h1 : (b.content = [] ∧ b.ty ≠ BLOCK_ID_PADDING ∧ b.ty ≠ BLOCK_ID_SEEKTABLE)
    · rw [if_pos h1, if_pos h1]
    · rw [if_neg h1, if_neg h1]
      by_cases h2 : b.ty = BLOCK_ID_VORBIS_COMMENTS
      · rw [if_pos h2, if_pos h2]
        by_cases h3 : (v.isSome = true ∧ mode = ParsingMode.strict)
        · rw [if_pos h3, if_pos h3]
        · rw [if_neg h3, if_neg h3]
          cases hr : rc b.content mode with
          | error e => simp [hr]
          | ok vc => simp [hr, hlast, processChain]
      · rw [if_neg h2, if_neg h2]
        by_cases h4 : b.ty = BLOCK_ID_PICTURE
        · rw [if_pos h4, if_pos h4]
          cases hp : pp b.content mode with
          | ok p => simp [hp, hlast, processChain]
          | error e =>
            by_cases h5 : mode = ParsingMode.strict
            · simp [hp, h5]
            · simp [hp, h5, hlast, processChain]
        · rw [if_neg h4, if_neg h4]
          simp [hlast, processChain]
  | cons b bs hlast hbs ih =>
    intro hwf v pics junk
    have hb := hwf b (by simp)
    have hwfs : ∀ x ∈ bs, blockWF x := fun x hx => hwf x (by simp [hx])
    show readBlocksLoop rc pp mode ((encodeBlock b ++ encodeBlocks bs) ++ junk) v pics = _
    rw [List.append_assoc, readBlocksLoop]
    split
    · next e heq =>
      rw [Block.read_encodeBlock hb] at heq
      simp at heq
    next block rest heq =>
    rw [Block.read_encodeBlock hb] at heq
    simp only [Except.ok.injEq, Prod.mk.injEq] at heq
    obtain ⟨hbk, hrt⟩ := heq
    subst hbk
    subst hrt
    rw [processChain]
    by_cases h1 : (b.content = [] ∧ b.ty ≠ BLOCK_ID_PADDING ∧ b.ty ≠ BLOCK_ID_SEEKTABLE)
    · rw [if_pos h1, if_pos h1]
    · rw [if_neg h1, if_neg h1]
      by_cases h2 : b.ty = BLOCK_ID_VORBIS_COMMENTS
      · rw [if_pos h2, if_pos h2]
        by_cases h3 : (v.isSome = true ∧ mode = ParsingMode.strict)
        · rw [if_pos h3, if_pos h3]
        · rw [if_neg h3, if_neg h3]
          cases hr : rc b.content mode with
          | error e => simp [hr]
          | ok vc => simp [hr, hlast, ih hwfs]
      · rw [if_neg h2, if_neg h2]
        by_cases h4 : b.ty = BLOCK_ID_PICTURE
        · rw [if_pos h4, if_pos h4]
          cases hp : pp b.content mode with
          | ok p => simp [hp, hlast, ih hwfs]
          | error e =>
            by_cases h5 : mode = ParsingMode.strict
            · simp [hp, h5]
            · simp [hp, h5, hlast, ih hwfs]
        · rw [if_neg h4, if_neg h4]
          simp [hlast, ih hwfs]


theorem processChain_strict_dup_some {V P : Type}
    (rc : List Nat → ParsingMode → Except FlacErr V)
    (pp : List Nat → ParsingMode → Except FlacErr P) :
    ∀ (bs : List Block) (v0 : V) (pics : List P),
    (∀ b ∈ bs, goodBlock rc pp ParsingMode.strict b) →
    vorbisBlocks bs ≠ [] →
    processChain rc pp ParsingMode.strict bs (some v0) pics
      = .error FlacErr.duplicateVorbis := by
  intro bs
  induction bs with
  | nil =>
    intro v0 pics _ hne
    simp [vorbisBlocks] at hne
  | cons b rest ih =>
    intro v0 pics hgood hne
    obtain ⟨hz, hv, hp⟩ := hgood b (by simp)
    rw [processChain, if_neg hz]
    by_cases h2 : b.ty = BLOCK_ID_VORBIS_COMMENTS
    · rw [if_pos h2, if_pos ⟨rfl, rfl⟩]
    · rw [if_neg h2]
      have hne2 : vorbisBlocks rest ≠ [] := by
        simpa [vorbisBlocks, List.filter_cons, h2] using hne
      by_cases h4 : b.ty = BLOCK_ID_PICTURE
      · rw [if_pos h4]
        obtain ⟨p, hp2⟩ := hp h4 rfl
        simp only [hp2]
        exact ih v0 _ (fun x hx => hgood x (by simp [hx])) hne2
      · rw [if_neg h4]
        exact ih v0 _ (fun x hx => hgood x (by simp [hx])) hne2

theorem processChain_strict_dup {V P : Type}
    (rc : List Nat → ParsingMode → Except FlacErr V)
    (pp : List Nat → ParsingMode → Except FlacErr P) :
    ∀ (bs : List Block) (pics : List P),
    (∀ b ∈ bs, goodBlock rc pp ParsingMode.strict b) →
    2 ≤ (vorbisBlocks bs).length →
    processChain rc pp ParsingMode.strict bs none pics
      = .error FlacErr.duplicateVorbis := by
  intro bs
  induction bs with
  | nil =>
    intro pics _ hlen
    simp [vorbisBlocks] at hlen
  | cons b rest ih =>
    intro pics hgood hlen
    obtain ⟨hz, hv, hp⟩ := hgood b (by simp)
    rw [processChain, if_neg hz]
    by_cases h2 : b.ty = BLOCK_ID_VORBIS_COMMENTS
    · rw [if_pos h2, if_neg (by simp)]
      obtain ⟨vc, hvc⟩ := hv h2
      simp only [hvc]
      apply processChain_strict_dup_some rc pp rest vc pics
        (fun x hx => hgood x (by simp [hx]))
      have hcons : vorbisBlocks (b :: rest) = b :: vorbisBlocks rest := by
        simp [vorbisBlocks, List.filter_cons, h2]
      rw [hcons] at hlen
      simp only [List.length_cons] at hlen
      intro habs
      rw [habs] at hlen
      simp at hlen
    · have hfil : vorbisBlocks (b :: rest) = vorbisBlocks rest := by
        simp [vorbisBlocks, List.filter_cons, h2]
      rw [hfil] at hlen
      rw [if_neg h2]
      by_cases h4 : b.ty = BLOCK_ID_PICTURE
      · rw [if_pos h4]
        obtain ⟨p, hp2⟩ := hp h4 rfl
        simp only [hp2]
        exact ih _ (fun x hx => hgood x (by simp [hx])) hlen
      · rw [if_neg h4]
        exact ih _ (fun x hx => hgood x (by simp [hx])) hlen


theorem processChain_relaxed_ok {V P : Type}
    (rc : List Nat → ParsingMode → Except FlacErr V)
    (pp : List Nat → ParsingMode → Except FlacErr P) :
    ∀ (bs : List Block) (v : Option V) (pics : List P),
    (∀ b ∈ bs, goodBlock rc pp ParsingMode.relaxed b) →
    ∃ v2 p2, processChain rc pp ParsingMode.relaxed bs v pics = .ok (v2, p2)
      ∧ (vorbisBlocks bs = [] → v2 = v)
      ∧ (∀ bl, (vorbisBlocks bs).getLast? = some bl →
          ∀ w, rc bl.content ParsingMode.relaxed = .ok w → v2 = some w) := by
  intro bs
  induction bs with
  | nil =>
    intro v pics _
    exact ⟨v, pics, rfl, fun _ => rfl, by simp [vorbisBlocks]⟩
  | cons b rest ih =>
    intro v pics hgood
    obtain ⟨hz, hv, hp⟩ := hgood b (by simp)
    rw [processChain, if_neg hz]
    by_cases h2 : b.ty = BLOCK_ID_VORBIS_COMMENTS
    · rw [if_pos h2, if_neg (by simp)]
      obtain ⟨vc, hvc⟩ := hv h2
      simp only [hvc]
      obtain ⟨v2, p2, heq, hnone, hlast⟩ :=
        ih (some vc) pics (fun x hx => hgood x (by simp [hx]))
      have hcons : vorbisBlocks (b :: rest) = b :: vorbisBlocks rest := by
        simp [vorbisBlocks, List.filter_cons, h2]
      refine ⟨v2, p2, heq, ?_, ?_⟩
      · intro habs
        rw [hcons] at habs
        simp at habs
      · intro bl hbl w hw
        rw [hcons] at hbl
        cases hvrest : vorbisBlocks rest with
        | nil =>
          rw [hvrest] at hbl
          simp only [List.getLast?_singleton, Option.some.injEq] at hbl
          subst hbl
          rw [hw] at hvc
          simp only [Except.ok.injEq] at hvc
          rw [hnone hvrest, hvc]
        | cons x xs =>
          rw [hvrest] at hbl
          rw [List.getLast?_cons_cons] at hbl
          exact hlast bl (by rw [hvrest]; exact hbl) w hw
    · have hfil : vorbisBlocks (b :: rest) = vorbisBlocks rest := by
        simp [vorbisBlocks, List.filter_cons, h2]
      rw [if_neg h2]
      by_cases h4 : b.ty = BLOCK_ID_PICTURE
      · rw [if_pos h4]
        cases hp4 : pp b.content ParsingMode.relaxed with
        | ok p =>
          simp only [hp4]
          obtain ⟨v2, p2, heq, hnone, hlast⟩ :=
            ih v (pics ++ [p]) (fun x hx => hgood x (by simp [hx]))
          exact ⟨v2, p2, heq, fun hh => hnone (by rw [← hfil]; exact hh),
            fun bl hbl w hw => hlast bl (by rw [← hfil]; exact hbl) w hw⟩
        | error e =>
          simp only [hp4]
          rw [if_neg (by simp)]
          obtain ⟨v2, p2, heq, hnone, hlast⟩ :=
            ih v pics (fun x hx => hgood x (by simp [hx]))
          exact ⟨v2, p2, heq, fun hh => hnone (by rw [← hfil]; exact hh),
            fun bl hbl w hw => hlast bl (by rw [← hfil]; exact hbl) w hw⟩
      · rw [if_neg h4]
        obtain ⟨v2, p2, heq, hnone, hlast⟩ :=
          ih v pics (fun x hx => hgood x (by simp [hx]))
        exact ⟨v2, p2, heq, fun hh => hnone (by rw [← hfil]; exact hh),
          fun bl hbl w hw => hlast bl (by rw [← hfil]; exact hbl) w hw⟩


/-- C4: a FLAC stream with at least two Vorbis Comment blocks (and no
other block-level violation) fails with a hard decode error in strict
mode, while in relaxed mode the read succeeds and the resulting file's
Vorbis Comment tag is the parse of the LAST Vorbis Comment block in
stream order. -/
theorem claim_C4 {V P Pr I : Type}
    (rc : List Nat → ParsingMode → Except FlacErr V)
    (pp : List Nat → ParsingMode → Except FlacErr P)
    (rp : List Nat → Nat → Except FlacErr Pr)
    (pid : List Nat → ParsingMode → Except FlacErr I)
    (si : Block) (bs : List Block)
    (hsi_ty : si.ty = BLOCK_ID_STREAMINFO) (hsi_len : 18 ≤ si.content.length)
    (hsi_last : si.last = false) (hsi_wf : blockWF si)
    (hchain : ChainLast bs) (hwf : ∀ b ∈ bs, blockWF b)
    (hgs : ∀ b ∈ bs, goodBlock rc pp ParsingMode.strict b)
    (hgr : ∀ b ∈ bs, goodBlock rc pp ParsingMode.relaxed b)
    (hdup : 2 ≤ (vorbisBlocks bs).length) :
    flacReadFrom rc pp rp pid { parsing_mode := ParsingMode.strict, read_properties := false }
        (102 :: 76 :: 97 :: 67 :: (encodeBlock si ++ encodeBlocks bs))
      = .error FlacErr.duplicateVorbis
    ∧ ∃ file,
      flacReadFrom rc pp rp pid
          { parsing_mode := ParsingMode.relaxed, read_properties := false }
          (102 :: 76 :: 97 :: 67 :: (encodeBlock si ++ encodeBlocks bs))
        = .ok file
      ∧ ∀ bl, (vorbisBlocks bs).getLast? = some bl →
          ∀ w, rc bl.content ParsingMode.relaxed = .ok w →
          file.vorbis_comments_tag = some w := by
  have hread : Block.read (encodeBlock si ++ encodeBlocks bs) = .ok (si, encodeBlocks bs) :=
    Block.read_encodeBlock hsi_wf _
  constructor
  · rw [flacReadFrom_not_id3 rc pp rp pid _ (by decide)]
    rw [flacReadFromBlocks, if_pos (by simp)]
    simp only [hread]
    rw [if_neg (by simp [hsi_ty]), if_neg (by omega), hsi_last]
    have hloop := readBlocksLoop_encode rc pp ParsingMode.strict bs hchain hwf none [] []
    rw [List.append_nil] at hloop
    simp only [Bool.false_eq_true, if_false, hloop,
      processChain_strict_dup rc pp bs [] hgs hdup]
  · obtain ⟨v2, p2, heq, hnone, hlast⟩ := processChain_relaxed_ok rc pp bs none [] hgr
    refine ⟨{ id3v2_tag := none, vorbis_comments_tag := v2, pictures := p2,
              properties := none }, ?_, ?_⟩
    · rw [flacReadFrom_not_id3 rc pp rp pid _ (by decide)]
      rw [flacReadFromBlocks, if_pos (by simp)]
      simp only [hread]
      rw [if_neg (by simp [hsi_ty]), if_neg (by omega), hsi_last]
      have hloop := readBlocksLoop_encode rc pp ParsingMode.relaxed bs hchain hwf none [] []
      rw [List.append_nil] at hloop
      simp only [Bool.false_eq_true, if_false, hloop, heq]
    · intro bl hbl w hw
      exact hlast bl hbl w hw

/-- C4, witness: a stream with a STREAMINFO block and two Vorbis Comment
blocks, strict erroring and relaxed keeping the last parse. -/
theorem claim_C4_witness :
    @flacReadFrom (List Nat) Unit Unit Unit
        (fun c _ => Except.ok c) (fun _ _ => Except.ok ()) (fun _ _ => Except.ok ())
        (fun _ _ => Except.ok ())
        { parsing_mode := ParsingMode.strict, read_properties := false }
        (102 :: 76 :: 97 :: 67 ::
          (encodeBlock { last := false, ty := 0, content := List.replicate 18 0 }
            ++ encodeBlocks [{ last := false, ty := 4, content := [1] },
                             { last := true, ty := 4, content := [2] }]))
      = .error FlacErr.duplicateVorbis
    ∧ ∃ file,
      @flacReadFrom (List Nat) Unit Unit Unit
          (fun c _ => Except.ok c) (fun _ _ => Except.ok ()) (fun _ _ => Except.ok ())
          (fun _ _ => Except.ok ())
          { parsing_mode := ParsingMode.relaxed, read_properties := false }
          (102 :: 76 :: 97 :: 67 ::
            (encodeBlock { last := false, ty := 0, content := List.replicate 18 0 }
              ++ encodeBlocks [{ last := false, ty := 4, content := [1] },
                               { last := true, ty := 4, content := [2] }]))
        = .ok file
      ∧ ∀ bl, (vorbisBlocks [{ last := false, ty := 4, content := [1] },
                             { last := true, ty := 4, content := [2] }]).getLast?
            = some bl →
          ∀ w, (fun (c : List Nat) (_ : ParsingMode) => Except.ok (ε := FlacErr) c)
              bl.content ParsingMode.relaxed = .ok w →
          file.vorbis_comments_tag = some w :=
  claim_C4 (fun c _ => Except.ok c) (fun _ _ => Except.ok ()) (fun _ _ => Except.ok ())
    (fun _ _ => Except.ok ())
    { last := false, ty := 0, content := List.replicate 18 0 }
    [{ last := false, ty := 4, content := [1] }, { last := true, ty := 4, content := [2] }]
    rfl (by simp) rfl ⟨by decide, by simp⟩
    (ChainLast.cons _ _ rfl (ChainLast.single _ rfl))
    (by
      intro b hb
      simp only [List.mem_cons, List.not_mem_nil, or_false] at hb
      rcases hb with rfl | rfl <;> exact ⟨by decide, by decide⟩)
    (by
      intro b hb
      exact ⟨by
        simp only [List.mem_cons, List.not_mem_nil, or_false] at hb
        rcases hb with rfl | rfl <;> simp,
        fun _ => ⟨_, rfl⟩, fun _ _ => ⟨(), rfl⟩⟩)
    (by
      intro b hb
      exact ⟨by
        simp only [List.mem_cons, List.not_mem_nil, or_false] at hb
        rcases hb with rfl | rfl <;> simp,
        fun _ => ⟨_, rfl⟩, fun _ _ => ⟨(), rfl⟩⟩)
    (by decide)

end Lofty
